import Mathlib

/-!
# Peggy keeper querier

A shallow embedding of `module/x/peggy/keeper/querier.go`: the module level
router `NewQuerier` and its ten handlers.

* A Go `([]byte, error)` result is a `Reply`; a `nil` payload and a `nil`
  error are `none`.
* A Go run-time abort (index out of range, method call on a `nil` error) is
  an `Abort`; a handler run ends in `Run.returned` or `Run.aborted`.
* Every keeper method called by a handler is recorded, in call order, in the
  `reads` of the resulting `Exec`.
* The keeper, the codec and the `types` helpers live outside the querier
  file; they enter as the fields of `Keeper` and `Deps`.
-/

namespace Peggy

/-! ## Data model -/

/-- UInt64Nonce: an unsigned 64-bit sequence number (no arithmetic is done on it here). -/
abbrev UInt64Nonce := Nat

/-- AccAddress: the decoded bytes of a chain-native account address. -/
structure AccAddress where
  bytes : List Nat
  deriving DecidableEq, Repr

/-- EthereumAddress: the value built by `types.NewEthereumAddress` from a string. -/
structure EthereumAddress where
  hex : String
  deriving DecidableEq, Repr

/-- Modelled from the spec: the `types.Valset` declaration is not part of the
querier file. A snapshot of the validator set at a nonce, an ordered list of
(validator identity, voting power) pairs. -/
structure Valset where
  Nonce : UInt64Nonce
  Members : List (EthereumAddress × Nat)
  deriving DecidableEq, Repr

/-- Modelled from the spec: the `types.MsgValsetConfirm` declaration is not part
of the querier file. One signer attesting to one valset nonce. -/
structure MsgValsetConfirm where
  Nonce : UInt64Nonce
  Validator : AccAddress
  Signature : String
  deriving DecidableEq, Repr

/-- Modelled from the spec: the `types.OutgoingTxBatch` declaration is not part
of the querier file. A batch identified by (Nonce, TokenContract) carrying an
ordered list of transfer ids. -/
structure OutgoingTxBatch where
  Nonce : UInt64Nonce
  TokenContract : EthereumAddress
  Elements : List Nat
  deriving DecidableEq, Repr

/-- Modelled from the spec: the `types.MsgConfirmBatch` declaration is not part
of the querier file. One signer attesting to one (Nonce, TokenContract) batch. -/
structure MsgConfirmBatch where
  Nonce : UInt64Nonce
  TokenContract : EthereumAddress
  Validator : AccAddress
  Signature : String
  deriving DecidableEq, Repr

/-! ## Errors -/

/-- The registered `sdkerrors` roots the querier wraps. -/
inductive ErrKind where
  | ErrUnknownRequest
  | ErrInvalidRequest
  | ErrJSONMarshal
  deriving DecidableEq, Repr

/-- The registered description of an `sdkerrors` root. -/
def ErrKind.description : ErrKind → String
  | .ErrUnknownRequest => "unknown request"
  | .ErrInvalidRequest => "invalid request"
  | .ErrJSONMarshal => "failed to marshal JSON bytes"

/-- A non-nil Go `error`: either an error made outside `sdkerrors` (`plain`),
or the result of `sdkerrors.Wrap root description` (`wrapped`). -/
inductive GoError where
  | plain (msg : String)
  | wrapped (root : ErrKind) (description : String)
  deriving DecidableEq, Repr

/-- The `Error()` method. -/
def GoError.Error : GoError → String
  | .plain msg => msg
  | .wrapped root description => description ++ ": " ++ root.description

/-- The `sdkerrors.Wrap` function, applied to a registered (non-nil) root. -/
def Wrap (root : ErrKind) (description : String) : GoError :=
  .wrapped root description

/-- The registered root of an error, if it has one. -/
def GoError.kind : GoError → Option ErrKind
  | .plain _ => none
  | .wrapped root _ => some root

deriving instance DecidableEq for Except

/-- Run-time aborts of the Go program. -/
inductive Abort where
  | indexOutOfRange (index len : Nat)
  | nilDereference
  deriving DecidableEq, Repr

/-- The pair `(res []byte, err error)` a handler returns. -/
structure Reply where
  res : Option String
  err : Option GoError
  deriving DecidableEq, Repr

/-- How a handler run ends. -/
inductive Run where
  | returned (reply : Reply)
  | aborted (cause : Abort)
  deriving DecidableEq, Repr

/-! ## Keeper, codec and store reads -/

/-- One call of a keeper read method. -/
inductive StoreRead where
  | GetCurrentValset
  | GetValsetRequest (nonce : UInt64Nonce)
  | GetValsetConfirm (nonce : UInt64Nonce) (validator : AccAddress)
  | IterateValsetConfirmByNonce (nonce : UInt64Nonce)
  | IterateValsetRequest
  | GetOutgoingTXBatch (tokenContract : EthereumAddress) (nonce : UInt64Nonce)
  | IterateOutgoingTXBatches
  | GetBatchConfirm (nonce : UInt64Nonce) (tokenContract : EthereumAddress) (validator : AccAddress)
  | IterateBatchConfirmByNonceAndTokenContract (nonce : UInt64Nonce) (tokenContract : EthereumAddress)
  deriving DecidableEq, Repr

/-- Result of a handler run together with the keeper reads it made. -/
structure Exec where
  run : Run
  reads : List StoreRead
  deriving DecidableEq, Repr

/-- Modelled from the spec: the `Keeper` type and its read methods are declared
outside the querier file. Point lookups are functions to an optional record;
each `Iterate...` method is given by the finite sequence of records it visits,
in store-key order. -/
structure Keeper where
  GetCurrentValset : Valset
  GetValsetRequest : UInt64Nonce → Option Valset
  GetValsetConfirm : UInt64Nonce → AccAddress → Option MsgValsetConfirm
  ValsetConfirmByNonce : UInt64Nonce → List MsgValsetConfirm
  ValsetRequest : List Valset
  GetOutgoingTXBatch : EthereumAddress → UInt64Nonce → Option OutgoingTxBatch
  OutgoingTXBatches : List OutgoingTxBatch
  GetBatchConfirm : UInt64Nonce → EthereumAddress → AccAddress → Option MsgConfirmBatch
  BatchConfirmByNonceAndTokenContract : UInt64Nonce → EthereumAddress → List MsgConfirmBatch

/-- The values the querier hands to `codec.MarshalJSONIndent`. -/
inductive Encodable where
  | valset (v : Valset)
  | valsetPtr (v : Valset)
  | valsets (vs : List Valset)
  | valsetConfirm (c : MsgValsetConfirm)
  | valsetConfirms (cs : List MsgValsetConfirm)
  | batchPtr (b : OutgoingTxBatch)
  | batches (bs : List OutgoingTxBatch)
  | batchConfirms (cs : List MsgConfirmBatch)
  deriving DecidableEq, Repr

/-- The functions of `types`, `sdk` and `codec` the querier calls. They are
declared outside the querier file and enter as parameters. -/
structure Deps where
  ModuleName : String
  UInt64NonceFromString : String → Except GoError UInt64Nonce
  AccAddressFromBech32 : String → Except GoError AccAddress
  NewEthereumAddress : String → EthereumAddress
  ValidateBasic : EthereumAddress → Option GoError
  MarshalJSONIndent : Encodable → Except GoError String

/-- Modelled from the spec: the keeper iterators are declared outside the
querier file. The visitor is called on each record in order and iteration
stops as soon as it returns true; the visitor's captured variables are the
state `σ`. -/
def iterate {α σ : Type} (items : List α) (cb : σ → α → σ × Bool) (s : σ) : σ :=
  match items with
  | [] => s
  | x :: xs =>
    match cb s x with
    | (s', true) => s'
    | (s', false) => iterate xs cb s'

/-- The Go index expression `path[i]`. -/
def index (path : List String) (i : Nat) : Except Abort String :=
  match path.get? i with
  | some s => .ok s
  | none => .error (.indexOutOfRange i path.length)

/-! ## The querier -/

def QueryValsetRequest : String := "valsetRequest"
def QueryValsetConfirmsByNonce : String := "valsetConfirms"
def QueryLastValsetRequests : String := "lastValsetRequests"
def QueryLastPendingValsetRequestByAddr : String := "lastPendingValsetRequest"
def QueryCurrentValset : String := "currentValset"
def QueryValsetConfirm : String := "valsetConfirm"
def QueryBatch : String := "batch"
def QueryLastPendingBatchRequestByAddr : String := "lastPendingBatchRequest"
def QueryOutgoingTxBatches : String := "lastBatches"
def QueryBatchConfirms : String := "batchConfirms"

def maxValsetRequestsReturned : Nat := 5

def MaxResults : Nat := 100

/-- The function `parseNonce`. -/
def parseNonce (d : Deps) (nonceArg : String) : Except GoError UInt64Nonce :=
  d.UInt64NonceFromString nonceArg

/-- The tail shared by every handler: `codec.MarshalJSONIndent` on the value,
a failure wrapped under `root`. A successful encode yields the encoder's
bytes, a non-nil payload. -/
def marshalReply (d : Deps) (root : ErrKind) (v : Encodable) : Run :=
  match d.MarshalJSONIndent v with
  | .error err => .returned ⟨none, some (Wrap root err.Error)⟩
  | .ok res => .returned ⟨some res, none⟩

/-- The function `queryValsetRequest`. -/
def queryValsetRequest (d : Deps) (path : List String) (keeper : Keeper) : Exec :=
  match index path 0 with
  | .error a => ⟨.aborted a, []⟩
  | .ok p0 =>
    match parseNonce d p0 with
    | .error err => ⟨.returned ⟨none, some err⟩, []⟩
    | .ok nonce =>
      match keeper.GetValsetRequest nonce with
      | none => ⟨.returned ⟨none, none⟩, [.GetValsetRequest nonce]⟩
      | some valset =>
        ⟨marshalReply d .ErrJSONMarshal (.valset valset), [.GetValsetRequest nonce]⟩

/-- The function `queryAllValsetConfirms`. -/
def queryAllValsetConfirms (d : Deps) (nonceStr : String) (keeper : Keeper) : Exec :=
  match parseNonce d nonceStr with
  | .error err => ⟨.returned ⟨none, some (Wrap .ErrInvalidRequest err.Error)⟩, []⟩
  | .ok nonce =>
    let confirms : List MsgValsetConfirm :=
      iterate (keeper.ValsetConfirmByNonce nonce) (fun confirms c => (confirms ++ [c], false)) []
    if confirms.length = 0 then
      ⟨.returned ⟨none, none⟩, [.IterateValsetConfirmByNonce nonce]⟩
    else
      ⟨marshalReply d .ErrJSONMarshal (.valsetConfirms confirms), [.IterateValsetConfirmByNonce nonce]⟩

/-- The function `queryAllBatchConfirms`. -/
def queryAllBatchConfirms (d : Deps) (nonceStr tokenContractString : String) (keeper : Keeper) :
    Exec :=
  match parseNonce d nonceStr with
  | .error err => ⟨.returned ⟨none, some (Wrap .ErrInvalidRequest err.Error)⟩, []⟩
  | .ok nonce =>
    let tokenContract := d.NewEthereumAddress tokenContractString
    let confirms : List MsgConfirmBatch :=
      iterate (keeper.BatchConfirmByNonceAndTokenContract nonce tokenContract)
        (fun confirms c => (confirms ++ [c], false)) []
    if confirms.length = 0 then
      ⟨.returned ⟨none, none⟩, [.IterateBatchConfirmByNonceAndTokenContract nonce tokenContract]⟩
    else
      ⟨marshalReply d .ErrJSONMarshal (.batchConfirms confirms),
        [.IterateBatchConfirmByNonceAndTokenContract nonce tokenContract]⟩

/-- The visitor of `lastValsetRequests`; its captured variables are
`(valReq, counter)`. -/
def lastValsetRequestsVisit (s : List Valset × Nat) (val : Valset) : (List Valset × Nat) × Bool :=
  let valReq := s.1 ++ [val]
  let counter := s.2 + 1
  ((valReq, counter), decide (counter ≥ maxValsetRequestsReturned))

/-- The slice `valReq` after the iteration in `lastValsetRequests`. -/
def lastValsetRequestsCollected (keeper : Keeper) : List Valset :=
  (iterate keeper.ValsetRequest lastValsetRequestsVisit ([], 0)).1

/-- The function `lastValsetRequests`. -/
def lastValsetRequests (d : Deps) (keeper : Keeper) : Exec :=
  let valReq := lastValsetRequestsCollected keeper
  if valReq.length = 0 then
    ⟨.returned ⟨none, none⟩, [.IterateValsetRequest]⟩
  else
    ⟨marshalReply d .ErrJSONMarshal (.valsets valReq), [.IterateValsetRequest]⟩

/-- The visitor of `lastPendingValsetRequest`; its captured variable is
`pendingValsetReq`, threaded together with the keeper reads made so far. -/
def lastPendingValsetRequestVisit (keeper : Keeper) (addr : AccAddress)
    (s : Option Valset × List StoreRead) (val : Valset) :
    (Option Valset × List StoreRead) × Bool :=
  let reads := s.2 ++ [StoreRead.GetValsetConfirm val.Nonce addr]
  let foundConfirm := (keeper.GetValsetConfirm val.Nonce addr).isSome
  if !foundConfirm then
    ((some val, reads), true)
  else
    ((s.1, reads), false)

/-- The function `lastPendingValsetRequest`. -/
def lastPendingValsetRequest (d : Deps) (operatorAddr : String) (keeper : Keeper) : Exec :=
  match d.AccAddressFromBech32 operatorAddr with
  | .error _ => ⟨.returned ⟨none, some (Wrap .ErrInvalidRequest "address invalid")⟩, []⟩
  | .ok addr =>
    match iterate keeper.ValsetRequest (lastPendingValsetRequestVisit keeper addr)
        (none, [.IterateValsetRequest]) with
    | (none, reads) => ⟨.returned ⟨none, none⟩, reads⟩
    | (some pendingValsetReq, reads) =>
      ⟨marshalReply d .ErrJSONMarshal (.valsetPtr pendingValsetReq), reads⟩

/-- The function `queryCurrentValset`. -/
def queryCurrentValset (d : Deps) (keeper : Keeper) : Exec :=
  let valset := keeper.GetCurrentValset
  ⟨marshalReply d .ErrJSONMarshal (.valset valset), [.GetCurrentValset]⟩

/-- The function `queryValsetConfirm`. -/
def queryValsetConfirm (d : Deps) (path : List String) (keeper : Keeper) : Exec :=
  match index path 0 with
  | .error a => ⟨.aborted a, []⟩
  | .ok p0 =>
    match parseNonce d p0 with
    | .error err => ⟨.returned ⟨none, some (Wrap .ErrInvalidRequest err.Error)⟩, []⟩
    | .ok nonce =>
      match index path 1 with
      | .error a => ⟨.aborted a, []⟩
      | .ok p1 =>
        match d.AccAddressFromBech32 p1 with
        | .error err => ⟨.returned ⟨none, some (Wrap .ErrInvalidRequest err.Error)⟩, []⟩
        | .ok accAddress =>
          match keeper.GetValsetConfirm nonce accAddress with
          | none => ⟨.returned ⟨none, none⟩, [.GetValsetConfirm nonce accAddress]⟩
          | some valset =>
            ⟨marshalReply d .ErrJSONMarshal (.valsetConfirm valset),
              [.GetValsetConfirm nonce accAddress]⟩

/-- The visitor of `lastPendingBatchRequest`; its captured variable is
`pendingBatchReq`, threaded together with the keeper reads made so far. -/
def lastPendingBatchRequestVisit (keeper : Keeper) (addr : AccAddress)
    (s : Option OutgoingTxBatch × List StoreRead) (batch : OutgoingTxBatch) :
    (Option OutgoingTxBatch × List StoreRead) × Bool :=
  let reads := s.2 ++ [StoreRead.GetBatchConfirm batch.Nonce batch.TokenContract addr]
  let foundConfirm := (keeper.GetBatchConfirm batch.Nonce batch.TokenContract addr).isSome
  if !foundConfirm then
    ((some batch, reads), true)
  else
    ((s.1, reads), false)

/-- The function `lastPendingBatchRequest`. -/
def lastPendingBatchRequest (d : Deps) (operatorAddr : String) (keeper : Keeper) : Exec :=
  match d.AccAddressFromBech32 operatorAddr with
  | .error _ => ⟨.returned ⟨none, some (Wrap .ErrInvalidRequest "address invalid")⟩, []⟩
  | .ok addr =>
    match iterate keeper.OutgoingTXBatches (lastPendingBatchRequestVisit keeper addr)
        (none, [.IterateOutgoingTXBatches]) with
    | (none, reads) => ⟨.returned ⟨none, none⟩, reads⟩
    | (some pendingBatchReq, reads) =>
      ⟨marshalReply d .ErrJSONMarshal (.batchPtr pendingBatchReq), reads⟩

/-- The visitor of `lastBatchesRequest`; its captured variable is `batches`. -/
def lastBatchesRequestVisit (s : List OutgoingTxBatch) (batch : OutgoingTxBatch) :
    List OutgoingTxBatch × Bool :=
  let batches := s ++ [batch]
  (batches, decide (batches.length = MaxResults))

/-- The slice `batches` after the iteration in `lastBatchesRequest`. -/
def lastBatchesRequestCollected (keeper : Keeper) : List OutgoingTxBatch :=
  iterate keeper.OutgoingTXBatches lastBatchesRequestVisit []

/-- The function `lastBatchesRequest`. -/
def lastBatchesRequest (d : Deps) (keeper : Keeper) : Exec :=
  let batches := lastBatchesRequestCollected keeper
  if batches.length = 0 then
    ⟨.returned ⟨none, none⟩, [.IterateOutgoingTXBatches]⟩
  else
    ⟨marshalReply d .ErrJSONMarshal (.batches batches), [.IterateOutgoingTXBatches]⟩

/-- The function `queryBatch`. The variable `err` holds the error returned by
`parseNonce`; on the `ValidateBasic` branch it is `nil`, and `err.Error()` is a
method call on a nil interface value. -/
def queryBatch (d : Deps) (nonce tokenContract : String) (keeper : Keeper) : Exec :=
  match parseNonce d nonce with
  | .error err => ⟨.returned ⟨none, some (Wrap .ErrUnknownRequest err.Error)⟩, []⟩
  | .ok parsedNonce =>
    let err : Option GoError := none
    let contractAddress := d.NewEthereumAddress tokenContract
    if (d.ValidateBasic contractAddress).isSome then
      match err with
      | none => ⟨.aborted .nilDereference, []⟩
      | some e => ⟨.returned ⟨none, some (Wrap .ErrUnknownRequest e.Error)⟩, []⟩
    else
      match keeper.GetOutgoingTXBatch contractAddress parsedNonce with
      | none =>
        ⟨.returned ⟨none, some (Wrap .ErrUnknownRequest "Can not find tx batch")⟩,
          [.GetOutgoingTXBatch contractAddress parsedNonce]⟩
      | some foundBatch =>
        ⟨marshalReply d .ErrUnknownRequest (.batchPtr foundBatch),
          [.GetOutgoingTXBatch contractAddress parsedNonce]⟩

/-- The router returned by `NewQuerier`. Arguments of a call are evaluated
left to right, so `path[1]` is indexed before `path[2]`. -/
def NewQuerier (d : Deps) (keeper : Keeper) (path : List String) : Exec :=
  match index path 0 with
  | .error a => ⟨.aborted a, []⟩
  | .ok p0 =>
    if p0 = QueryCurrentValset then queryCurrentValset d keeper
    else if p0 = QueryValsetRequest then queryValsetRequest d (path.drop 1) keeper
    else if p0 = QueryValsetConfirm then queryValsetConfirm d (path.drop 1) keeper
    else if p0 = QueryValsetConfirmsByNonce then
      match index path 1 with
      | .error a => ⟨.aborted a, []⟩
      | .ok p1 => queryAllValsetConfirms d p1 keeper
    else if p0 = QueryLastValsetRequests then lastValsetRequests d keeper
    else if p0 = QueryLastPendingValsetRequestByAddr then
      match index path 1 with
      | .error a => ⟨.aborted a, []⟩
      | .ok p1 => lastPendingValsetRequest d p1 keeper
    else if p0 = QueryBatch then
      match index path 1 with
      | .error a => ⟨.aborted a, []⟩
      | .ok p1 =>
        match index path 2 with
        | .error a => ⟨.aborted a, []⟩
        | .ok p2 => queryBatch d p1 p2 keeper
    else if p0 = QueryBatchConfirms then
      match index path 1 with
      | .error a => ⟨.aborted a, []⟩
      | .ok p1 =>
        match index path 2 with
        | .error a => ⟨.aborted a, []⟩
        | .ok p2 => queryAllBatchConfirms d p1 p2 keeper
    else if p0 = QueryLastPendingBatchRequestByAddr then
      match index path 1 with
      | .error a => ⟨.aborted a, []⟩
      | .ok p1 => lastPendingBatchRequest d p1 keeper
    else if p0 = QueryOutgoingTxBatches then lastBatchesRequest d keeper
    else
      ⟨.returned ⟨none, some (Wrap .ErrUnknownRequest
        ("unknown " ++ d.ModuleName ++ " query endpoint"))⟩, []⟩

/-- The run ends with a `(res, err)` pair handed back to the caller. -/
def Run.isReturned : Run → Bool
  | .returned _ => true
  | .aborted _ => false

/-- The run ends in an index-out-of-range abort. -/
def Run.isIndexOutOfRange : Run → Bool
  | .aborted (.indexOutOfRange _ _) => true
  | _ => false

/-- The number of path segments after the query name that the router and the
handler routed for `name` index: `path[1]` alone, or `path[1]` and `path[2]`
(`path[1:][0]` and `path[1:][1]` in `queryValsetConfirm`). -/
def argsConsumed (name : String) : Nat :=
  if name = QueryValsetRequest then 1
  else if name = QueryValsetConfirm then 2
  else if name = QueryValsetConfirmsByNonce then 1
  else if name = QueryLastPendingValsetRequestByAddr then 1
  else if name = QueryBatch then 2
  else if name = QueryBatchConfirms then 2
  else if name = QueryLastPendingBatchRequestByAddr then 1
  else 0

/-! ## A concrete instance of the collaborators -/

/-- The value of a decimal digit. -/
def digitValue (c : Char) : Option Nat :=
  if 48 ≤ c.toNat ∧ c.toNat ≤ 57 then some (c.toNat - 48) else none

/-- Left-to-right accumulation of decimal digits. -/
def parseDigits : List Char → Nat → Option Nat
  | [], acc => some acc
  | c :: cs, acc =>
    match digitValue c with
    | none => none
    | some v => parseDigits cs (10 * acc + v)

/-- Modelled from the spec: `types.UInt64NonceFromString` is declared outside
the querier file. A decimal parse that fails if the text is not a well-formed
non-negative integer representable in 64 bits. -/
def UInt64NonceFromString (s : String) : Except GoError UInt64Nonce :=
  match s.data with
  | [] => .error (.plain "invalid syntax")
  | c :: cs =>
    match parseDigits (c :: cs) 0 with
    | none => .error (.plain "invalid syntax")
    | some n => if n < 2 ^ 64 then .ok n else .error (.plain "value out of range")

/-- Modelled from the spec: `sdk.AccAddressFromBech32` is declared outside the
querier file. A stand-in for the checksummed decode: a non-empty text of
lower-case letters and digits decodes to its character codes, anything else
is a decoding error. -/
def AccAddressFromBech32 (s : String) : Except GoError AccAddress :=
  match s.data with
  | [] => .error (.plain "empty address string is not allowed")
  | c :: cs =>
    if (c :: cs).all (fun ch => ch.isLower || ch.isDigit) then
      .ok ⟨(c :: cs).map Char.toNat⟩
    else .error (.plain "decoding bech32 failed")

/-- Modelled from the spec: `types.NewEthereumAddress` is declared outside the
querier file. The constructor keeps the text it is given. -/
def NewEthereumAddress (s : String) : EthereumAddress := ⟨s⟩

/-- A character of the hexadecimal charset. -/
def isHexChar (c : Char) : Bool :=
  c.isDigit || (97 ≤ c.toNat && c.toNat ≤ 102) || (65 ≤ c.toNat && c.toNat ≤ 70)

/-- Modelled from the spec: `EthereumAddress.ValidateBasic` is declared outside
the querier file. The structural check of fixed length and defined charset:
`0x` followed by forty hexadecimal characters. -/
def ValidateBasic (e : EthereumAddress) : Option GoError :=
  match e.hex.data with
  | '0' :: 'x' :: rest =>
    if rest.length = 40 ∧ rest.all isHexChar = true then none
    else some (.plain "invalid ethereum address")
  | _ => some (.plain "invalid ethereum address")

/-- A stand-in encoder that never fails: it renders the kind of value and the
nonces it carries. -/
def sampleMarshalJSONIndent : Encodable → Except GoError String
  | .valset v => .ok ("valset " ++ Nat.repr v.Nonce)
  | .valsetPtr v => .ok ("valset " ++ Nat.repr v.Nonce)
  | .valsets vs => .ok ("valsets " ++ " ".intercalate (vs.map (fun v => Nat.repr v.Nonce)))
  | .valsetConfirm c => .ok ("confirm " ++ Nat.repr c.Nonce)
  | .valsetConfirms cs => .ok ("confirms " ++ " ".intercalate (cs.map (fun c => Nat.repr c.Nonce)))
  | .batchPtr b => .ok ("batch " ++ Nat.repr b.Nonce ++ " " ++ b.TokenContract.hex)
  | .batches bs => .ok ("batches " ++ " ".intercalate (bs.map (fun b => Nat.repr b.Nonce)))
  | .batchConfirms cs => .ok ("confirms " ++ " ".intercalate (cs.map (fun c => Nat.repr c.Nonce)))

/-- The collaborators used in the concrete scenarios. -/
def sampleDeps : Deps where
  ModuleName := "peggy"
  UInt64NonceFromString := UInt64NonceFromString
  AccAddressFromBech32 := AccAddressFromBech32
  NewEthereumAddress := NewEthereumAddress
  ValidateBasic := ValidateBasic
  MarshalJSONIndent := sampleMarshalJSONIndent

/-- A keeper over explicit record lists, each list in store-key order; the
point lookups search the lists by key. -/
def storeKeeper (current : Valset) (valsets : List Valset) (valsetConfirms : List MsgValsetConfirm)
    (batches : List OutgoingTxBatch) (batchConfirms : List MsgConfirmBatch) : Keeper where
  GetCurrentValset := current
  GetValsetRequest := fun nonce => valsets.find? (fun v => v.Nonce = nonce)
  GetValsetConfirm := fun nonce validator =>
    valsetConfirms.find? (fun c => c.Nonce = nonce ∧ c.Validator = validator)
  ValsetConfirmByNonce := fun nonce => valsetConfirms.filter (fun c => c.Nonce = nonce)
  ValsetRequest := valsets
  GetOutgoingTXBatch := fun tokenContract nonce =>
    batches.find? (fun b => b.TokenContract = tokenContract ∧ b.Nonce = nonce)
  OutgoingTXBatches := batches
  GetBatchConfirm := fun nonce tokenContract validator =>
    batchConfirms.find?
      (fun c => c.Nonce = nonce ∧ c.TokenContract = tokenContract ∧ c.Validator = validator)
  BatchConfirmByNonceAndTokenContract := fun nonce tokenContract =>
    batchConfirms.filter (fun c => c.Nonce = nonce ∧ c.TokenContract = tokenContract)

/-- The valset with the given nonce and no members. -/
def valsetAt (nonce : UInt64Nonce) : Valset := ⟨nonce, []⟩

/-- The decoded address of signer `alice`. -/
def alice : AccAddress := ⟨[97, 108, 105, 99, 101]⟩

/-- The decoded address of signer `bob`. -/
def bob : AccAddress := ⟨[98, 111, 98]⟩

/-- Two well-formed token contracts. -/
def tokenT : EthereumAddress := ⟨"0x0000000000000000000000000000000000000001"⟩
def tokenU : EthereumAddress := ⟨"0x0000000000000000000000000000000000000002"⟩

/-- The scenario store: valsets at nonces 1, 2, 3; `alice` has confirmed valset
1 only and `bob` all three; batches (1, T), (1, U), (2, T); `alice` has
confirmed batch (1, T) only and `bob` all three. -/
def scenarioKeeper : Keeper :=
  storeKeeper (valsetAt 3) [valsetAt 1, valsetAt 2, valsetAt 3]
    [⟨1, alice, "sa1"⟩, ⟨1, bob, "sb1"⟩, ⟨2, bob, "sb2"⟩, ⟨3, bob, "sb3"⟩]
    [⟨1, tokenT, [10]⟩, ⟨1, tokenU, [11]⟩, ⟨2, tokenT, [12]⟩]
    [⟨1, tokenT, alice, "ba1"⟩, ⟨1, tokenT, bob, "bb1"⟩, ⟨1, tokenU, bob, "bb2"⟩,
      ⟨2, tokenT, bob, "bb3"⟩]

/-- The store with no valset, batch or confirmation. -/
def emptyKeeper : Keeper := storeKeeper (valsetAt 0) [] [] [] []

/-- A store with `n` valsets and `n` batches at nonces 1 to `n`, nothing confirmed. -/
def rangeKeeper (n : Nat) : Keeper :=
  storeKeeper (valsetAt n) ((List.range n).map (fun i => valsetAt (i + 1))) []
    ((List.range n).map (fun i => ⟨i + 1, tokenT, []⟩)) []

/-- The variable `pendingValsetReq` after the iteration in
`lastPendingValsetRequest`. -/
def lastPendingValsetRequestFound (keeper : Keeper) (addr : AccAddress) : Option Valset :=
  (iterate keeper.ValsetRequest (lastPendingValsetRequestVisit keeper addr)
    (none, [.IterateValsetRequest])).1

/-- The variable `pendingBatchReq` after the iteration in
`lastPendingBatchRequest`. -/
def lastPendingBatchRequestFound (keeper : Keeper) (addr : AccAddress) :
    Option OutgoingTxBatch :=
  (iterate keeper.OutgoingTXBatches (lastPendingBatchRequestVisit keeper addr)
    (none, [.IterateOutgoingTXBatches])).1

/-- The value of a run of decimal digits, most significant first. -/
def decimalValue (cs : List Char) : Nat :=
  cs.foldl (fun acc c => 10 * acc + (c.toNat - 48)) 0

/-- The spec's wording of a nonce text: a well-formed non-negative decimal
integer, that is a non-empty run of the digits 0 to 9, whose value is
representable in 64 bits. -/
def wellFormedNonce (s : String) : Bool :=
  !s.data.isEmpty && s.data.all Char.isDigit && decide (decimalValue s.data < 2 ^ 64)

/-- The collaborators of `sampleDeps` with an encoder that fails on every
value. -/
def failingDeps : Deps :=
  { sampleDeps with MarshalJSONIndent := fun _ => .error (.plain "unregistered concrete type") }

/-- The scenario store after `alice` has also confirmed valset 2; every other
lookup is unchanged. -/
def scenarioKeeperConfirmed : Keeper :=
  { scenarioKeeper with
    GetValsetConfirm := fun nonce validator =>
      if nonce = 2 ∧ validator = alice then some ⟨2, alice, "sa2"⟩
      else scenarioKeeper.GetValsetConfirm nonce validator }

/-- A store that agrees with the scenario store up to the first item `alice`
has not confirmed (valset 2, batch (1, U)) and differs after it, and in which
`bob` has confirmed nothing. -/
def scenarioKeeperVariant : Keeper :=
  storeKeeper (valsetAt 9) [valsetAt 1, valsetAt 2, valsetAt 8, valsetAt 9]
    [⟨1, alice, "sa1"⟩, ⟨8, alice, "sa8"⟩]
    [⟨1, tokenT, [10]⟩, ⟨1, tokenU, [11]⟩, ⟨5, tokenU, [15]⟩]
    [⟨1, tokenT, alice, "ba1"⟩, ⟨5, tokenU, alice, "ba5"⟩]

/-- The scenario store with every confirmation by a signer other than `alice`
removed. -/
def scenarioKeeperAliceOnly : Keeper :=
  { scenarioKeeper with
    GetValsetConfirm := fun nonce validator =>
      if validator = alice then scenarioKeeper.GetValsetConfirm nonce validator else none
    GetBatchConfirm := fun nonce tokenContract validator =>
      if validator = alice then scenarioKeeper.GetBatchConfirm nonce tokenContract validator
      else none }

/-! ## The pending scan -/

theorem iterate_cons_continue {α σ : Type} (x : α) (xs : List α) (cb : σ → α → σ × Bool)
    (s s' : σ) (h : cb s x = (s', false)) : iterate (x :: xs) cb s = iterate xs cb s' := by
  simp [iterate, h]

theorem iterate_cons_stop {α σ : Type} (x : α) (xs : List α) (cb : σ → α → σ × Bool)
    (s s' : σ) (h : cb s x = (s', true)) : iterate (x :: xs) cb s = s' := by
  simp [iterate, h]

/-- A visitor that stops on the first record whose confirmation is missing
either runs over a fully confirmed sequence, or stops at the first
unconfirmed record having looked up exactly the records up to it. -/
theorem iterate_pending {α : Type} (conf : α → Bool) (read : α → StoreRead)
    (cb : Option α × List StoreRead → α → (Option α × List StoreRead) × Bool)
    (hcb : ∀ s x, cb s x =
      if conf x then ((s.1, s.2 ++ [read x]), false) else ((some x, s.2 ++ [read x]), true))
    (items : List α) (p : Option α) (reads : List StoreRead) :
    ((∀ x ∈ items, conf x = true) ∧
        iterate items cb (p, reads) = (p, reads ++ items.map read)) ∨
      (∃ pre v post, items = pre ++ v :: post ∧ (∀ u ∈ pre, conf u = true) ∧ conf v = false ∧
        iterate items cb (p, reads) = (some v, reads ++ (pre ++ [v]).map read)) := by
  induction items generalizing p reads with
  | nil => left; simp [iterate]
  | cons x xs ih =>
    cases hx : conf x with
    | false =>
      right
      refine ⟨[], x, xs, rfl, by simp, hx, ?_⟩
      rw [iterate_cons_stop x xs cb (p, reads) (some x, reads ++ [read x]) (by simp [hcb, hx])]
      simp
    | true =>
      rw [iterate_cons_continue x xs cb (p, reads) (p, reads ++ [read x]) (by simp [hcb, hx])]
      rcases ih p (reads ++ [read x]) with ⟨hall, hit⟩ | ⟨pre, v, post, hsplit, hpre, hv, hit⟩
      · left
        refine ⟨?_, ?_⟩
        · intro y hy
          rcases List.mem_cons.mp hy with rfl | hy
          · exact hx
          · exact hall y hy
        · rw [hit]; simp
      · right
        refine ⟨x :: pre, v, post, by simp [hsplit], ?_, hv, ?_⟩
        · intro y hy
          rcases List.mem_cons.mp hy with rfl | hy
          · exact hx
          · exact hpre y hy
        · rw [hit]; simp

theorem lastPendingValsetRequestVisit_eq (keeper : Keeper) (addr : AccAddress)
    (s : Option Valset × List StoreRead) (val : Valset) :
    lastPendingValsetRequestVisit keeper addr s val =
      if (keeper.GetValsetConfirm val.Nonce addr).isSome then
        ((s.1, s.2 ++ [StoreRead.GetValsetConfirm val.Nonce addr]), false)
      else ((some val, s.2 ++ [StoreRead.GetValsetConfirm val.Nonce addr]), true) := by
  unfold lastPendingValsetRequestVisit
  cases (keeper.GetValsetConfirm val.Nonce addr).isSome <;> simp

theorem lastPendingBatchRequestVisit_eq (keeper : Keeper) (addr : AccAddress)
    (s : Option OutgoingTxBatch × List StoreRead) (batch : OutgoingTxBatch) :
    lastPendingBatchRequestVisit keeper addr s batch =
      if (keeper.GetBatchConfirm batch.Nonce batch.TokenContract addr).isSome then
        ((s.1, s.2 ++ [StoreRead.GetBatchConfirm batch.Nonce batch.TokenContract addr]), false)
      else
        ((some batch, s.2 ++ [StoreRead.GetBatchConfirm batch.Nonce batch.TokenContract addr]),
          true) := by
  unfold lastPendingBatchRequestVisit
  cases (keeper.GetBatchConfirm batch.Nonce batch.TokenContract addr).isSome <;> simp

/-- The valset scan: fully confirmed, or stopped at the first unconfirmed valset. -/
theorem valset_scan (keeper : Keeper) (addr : AccAddress) :
    ((∀ x ∈ keeper.ValsetRequest, (keeper.GetValsetConfirm x.Nonce addr).isSome = true) ∧
        iterate keeper.ValsetRequest (lastPendingValsetRequestVisit keeper addr)
            (none, [.IterateValsetRequest]) =
          (none, [.IterateValsetRequest] ++
            keeper.ValsetRequest.map (fun x => StoreRead.GetValsetConfirm x.Nonce addr))) ∨
      (∃ pre v post, keeper.ValsetRequest = pre ++ v :: post ∧
        (∀ u ∈ pre, (keeper.GetValsetConfirm u.Nonce addr).isSome = true) ∧
        (keeper.GetValsetConfirm v.Nonce addr).isSome = false ∧
        iterate keeper.ValsetRequest (lastPendingValsetRequestVisit keeper addr)
            (none, [.IterateValsetRequest]) =
          (some v, [.IterateValsetRequest] ++
            (pre ++ [v]).map (fun x => StoreRead.GetValsetConfirm x.Nonce addr))) :=
  iterate_pending (fun x => (keeper.GetValsetConfirm x.Nonce addr).isSome)
    (fun x => StoreRead.GetValsetConfirm x.Nonce addr) _
    (lastPendingValsetRequestVisit_eq keeper addr) keeper.ValsetRequest none _

/-- The batch scan: fully confirmed, or stopped at the first unconfirmed batch. -/
theorem batch_scan (keeper : Keeper) (addr : AccAddress) :
    ((∀ x ∈ keeper.OutgoingTXBatches,
          (keeper.GetBatchConfirm x.Nonce x.TokenContract addr).isSome = true) ∧
        iterate keeper.OutgoingTXBatches (lastPendingBatchRequestVisit keeper addr)
            (none, [.IterateOutgoingTXBatches]) =
          (none, [.IterateOutgoingTXBatches] ++ keeper.OutgoingTXBatches.map
            (fun x => StoreRead.GetBatchConfirm x.Nonce x.TokenContract addr))) ∨
      (∃ pre v post, keeper.OutgoingTXBatches = pre ++ v :: post ∧
        (∀ u ∈ pre, (keeper.GetBatchConfirm u.Nonce u.TokenContract addr).isSome = true) ∧
        (keeper.GetBatchConfirm v.Nonce v.TokenContract addr).isSome = false ∧
        iterate keeper.OutgoingTXBatches (lastPendingBatchRequestVisit keeper addr)
            (none, [.IterateOutgoingTXBatches]) =
          (some v, [.IterateOutgoingTXBatches] ++
            (pre ++ [v]).map (fun x => StoreRead.GetBatchConfirm x.Nonce x.TokenContract addr))) :=
  iterate_pending (fun x => (keeper.GetBatchConfirm x.Nonce x.TokenContract addr).isSome)
    (fun x => StoreRead.GetBatchConfirm x.Nonce x.TokenContract addr) _
    (lastPendingBatchRequestVisit_eq keeper addr) keeper.OutgoingTXBatches none _

theorem marshalReply_ne_empty (d : Deps) (root : ErrKind) (v : Encodable) :
    marshalReply d root v ≠ .returned ⟨none, none⟩ := by
  unfold marshalReply
  cases d.MarshalJSONIndent v <;> simp

theorem marshalReply_of_ok (d : Deps) (root : ErrKind) (v : Encodable) (res : String)
    (h : d.MarshalJSONIndent v = .ok res) :
    marshalReply d root v = .returned ⟨some res, none⟩ := by
  simp [marshalReply, h]

/-- In a sequence ascending in `key`, the record after a prefix that `bad`
never holds on has the least key among the records `bad` holds on. -/
theorem first_is_least {α : Type} (key : α → Nat) (bad : α → Prop) (pre post : List α) (v : α)
    (hpre : ∀ u ∈ pre, ¬ bad u)
    (hsorted : (pre ++ v :: post).Pairwise (fun a b => key a ≤ key b)) :
    ∀ w ∈ pre ++ v :: post, bad w → key v ≤ key w := by
  intro w hw hbad
  rcases List.mem_append.mp hw with hw | hw
  · exact absurd hbad (hpre w hw)
  · rcases List.mem_cons.mp hw with rfl | hw
    · exact le_refl _
    · have h2 := (List.pairwise_append.mp hsorted).2.1
      exact (List.pairwise_cons.mp h2).1 w hw

/-- C1: for a signer that decodes to an address, when some stored valset has no
confirmation by the signer, `lastPendingValsetRequest` answers with the first
valset of the `IterateValsetRequest` sequence whose `GetValsetConfirm` is
absent: the reply is the encoder's output for it with no error, and when the
sequence ascends in nonce that valset has the least nonce among the
unconfirmed ones. -/
theorem lastPendingValsetRequest_first_unconfirmed (d : Deps) (keeper : Keeper)
    (signer : String) (addr : AccAddress)
    (hsigner : d.AccAddressFromBech32 signer = .ok addr)
    (hpending : ∃ w ∈ keeper.ValsetRequest, keeper.GetValsetConfirm w.Nonce addr = none) :
    ∃ pre v post, keeper.ValsetRequest = pre ++ v :: post ∧
      (∀ u ∈ pre, keeper.GetValsetConfirm u.Nonce addr ≠ none) ∧
      keeper.GetValsetConfirm v.Nonce addr = none ∧
      (lastPendingValsetRequest d signer keeper).run =
        marshalReply d .ErrJSONMarshal (.valsetPtr v) ∧
      (∀ res, d.MarshalJSONIndent (.valsetPtr v) = .ok res →
        (lastPendingValsetRequest d signer keeper).run = .returned ⟨some res, none⟩) ∧
      (keeper.ValsetRequest.Pairwise (fun a b => a.Nonce ≤ b.Nonce) →
        ∀ w ∈ keeper.ValsetRequest, keeper.GetValsetConfirm w.Nonce addr = none →
          v.Nonce ≤ w.Nonce) := by
  rcases valset_scan keeper addr with ⟨hall, _⟩ | ⟨pre, v, post, hsplit, hpre, hv, hit⟩
  · obtain ⟨w, hw, hnone⟩ := hpending
    have := hall w hw
    simp [hnone] at this
  · have hrun : (lastPendingValsetRequest d signer keeper).run =
        marshalReply d .ErrJSONMarshal (.valsetPtr v) := by
      simp [lastPendingValsetRequest, hsigner, hit]
    have hpre' : ∀ u ∈ pre, keeper.GetValsetConfirm u.Nonce addr ≠ none := fun u hu =>
      Option.isSome_iff_ne_none.mp (hpre u hu)
    refine ⟨pre, v, post, hsplit, hpre', ?_, hrun, ?_, ?_⟩
    · cases h : keeper.GetValsetConfirm v.Nonce addr with
      | none => rfl
      | some c => simp [h] at hv
    · intro res hres
      rw [hrun, marshalReply_of_ok d _ _ res hres]
    · intro hsorted
      rw [hsplit] at hsorted ⊢
      exact first_is_least (fun x => x.Nonce)
        (fun x => keeper.GetValsetConfirm x.Nonce addr = none) pre post v
        (fun u hu => hpre' u hu) hsorted

/-- The scenario of C1: valsets at nonces 1, 2, 3, the signer has confirmed
nonce 1 only; the reply is the valset at nonce 2. -/
theorem lastPendingValsetRequest_first_unconfirmed_witness :
    sampleDeps.AccAddressFromBech32 "alice" = .ok alice ∧
      (∃ w ∈ scenarioKeeper.ValsetRequest, scenarioKeeper.GetValsetConfirm w.Nonce alice = none) ∧
      (lastPendingValsetRequest sampleDeps "alice" scenarioKeeper).run =
        .returned ⟨some "valset 2", none⟩ ∧
      ∃ pre v post, scenarioKeeper.ValsetRequest = pre ++ v :: post ∧
        (∀ u ∈ pre, scenarioKeeper.GetValsetConfirm u.Nonce alice ≠ none) ∧
        scenarioKeeper.GetValsetConfirm v.Nonce alice = none ∧
        (lastPendingValsetRequest sampleDeps "alice" scenarioKeeper).run =
          marshalReply sampleDeps .ErrJSONMarshal (.valsetPtr v) ∧
        (∀ res, sampleDeps.MarshalJSONIndent (.valsetPtr v) = .ok res →
          (lastPendingValsetRequest sampleDeps "alice" scenarioKeeper).run =
            .returned ⟨some res, none⟩) ∧
        (scenarioKeeper.ValsetRequest.Pairwise (fun a b => a.Nonce ≤ b.Nonce) →
          ∀ w ∈ scenarioKeeper.ValsetRequest,
            scenarioKeeper.GetValsetConfirm w.Nonce alice = none → v.Nonce ≤ w.Nonce) :=
  ⟨by decide, ⟨valsetAt 2, by decide, by decide⟩, by decide,
    lastPendingValsetRequest_first_unconfirmed sampleDeps scenarioKeeper "alice" alice
      (by decide) ⟨valsetAt 2, by decide, by decide⟩⟩

/-- C2: for a signer that decodes to an address, `lastPendingValsetRequest`
returns a nil payload with no error exactly when every valset of the
`IterateValsetRequest` sequence has a confirmation by the signer. -/
theorem lastPendingValsetRequest_empty_iff (d : Deps) (keeper : Keeper)
    (signer : String) (addr : AccAddress)
    (hsigner : d.AccAddressFromBech32 signer = .ok addr) :
    (lastPendingValsetRequest d signer keeper).run = .returned ⟨none, none⟩ ↔
      ∀ v ∈ keeper.ValsetRequest, keeper.GetValsetConfirm v.Nonce addr ≠ none := by
  rcases valset_scan keeper addr with ⟨hall, hit⟩ | ⟨pre, v, post, hsplit, _, hv, hit⟩
  · constructor
    · intro _ v hv
      exact Option.isSome_iff_ne_none.mp (hall v hv)
    · intro _
      simp [lastPendingValsetRequest, hsigner, hit]
  · have hrun : (lastPendingValsetRequest d signer keeper).run =
        marshalReply d .ErrJSONMarshal (.valsetPtr v) := by
      simp [lastPendingValsetRequest, hsigner, hit]
    constructor
    · intro h
      rw [hrun] at h
      exact absurd h (marshalReply_ne_empty d _ _)
    · intro h
      have hmem : v ∈ keeper.ValsetRequest := by rw [hsplit]; simp
      have := Option.isSome_iff_ne_none.mpr (h v hmem)
      simp [this] at hv

/-- The scenarios of C2: valsets at nonces 1, 2, 3 all confirmed by the signer,
and the empty store; both replies are nil with no error. -/
theorem lastPendingValsetRequest_empty_iff_witness :
    sampleDeps.AccAddressFromBech32 "bob" = .ok bob ∧
      (lastPendingValsetRequest sampleDeps "bob" scenarioKeeper).run = .returned ⟨none, none⟩ ∧
      (lastPendingValsetRequest sampleDeps "bob" emptyKeeper).run = .returned ⟨none, none⟩ :=
  ⟨by decide,
    (lastPendingValsetRequest_empty_iff sampleDeps scenarioKeeper "bob" bob (by decide)).mpr
      (by decide),
    (lastPendingValsetRequest_empty_iff sampleDeps emptyKeeper "bob" bob (by decide)).mpr
      (by decide)⟩

/-- C3: for a signer that decodes to an address, `lastPendingBatchRequest`
answers with the first batch of the `IterateOutgoingTXBatches` sequence whose
`GetBatchConfirm` under its own nonce and token contract is absent (the one of
least nonce when the sequence ascends in nonce), and it returns a nil payload
with no error exactly when every batch of the sequence has such a
confirmation. -/
theorem lastPendingBatchRequest_first_unconfirmed (d : Deps) (keeper : Keeper)
    (signer : String) (addr : AccAddress)
    (hsigner : d.AccAddressFromBech32 signer = .ok addr) :
    ((∃ w ∈ keeper.OutgoingTXBatches,
          keeper.GetBatchConfirm w.Nonce w.TokenContract addr = none) →
        ∃ pre v post, keeper.OutgoingTXBatches = pre ++ v :: post ∧
          (∀ u ∈ pre, keeper.GetBatchConfirm u.Nonce u.TokenContract addr ≠ none) ∧
          keeper.GetBatchConfirm v.Nonce v.TokenContract addr = none ∧
          (lastPendingBatchRequest d signer keeper).run =
            marshalReply d .ErrJSONMarshal (.batchPtr v) ∧
          (∀ res, d.MarshalJSONIndent (.batchPtr v) = .ok res →
            (lastPendingBatchRequest d signer keeper).run = .returned ⟨some res, none⟩) ∧
          (keeper.OutgoingTXBatches.Pairwise (fun a b => a.Nonce ≤ b.Nonce) →
            ∀ w ∈ keeper.OutgoingTXBatches,
              keeper.GetBatchConfirm w.Nonce w.TokenContract addr = none → v.Nonce ≤ w.Nonce)) ∧
      ((lastPendingBatchRequest d signer keeper).run = .returned ⟨none, none⟩ ↔
        ∀ b ∈ keeper.OutgoingTXBatches,
          keeper.GetBatchConfirm b.Nonce b.TokenContract addr ≠ none) := by
  rcases batch_scan keeper addr with ⟨hall, hit⟩ | ⟨pre, v, post, hsplit, hpre, hv, hit⟩
  · have hall' : ∀ b ∈ keeper.OutgoingTXBatches,
        keeper.GetBatchConfirm b.Nonce b.TokenContract addr ≠ none := fun b hb =>
      Option.isSome_iff_ne_none.mp (hall b hb)
    refine ⟨?_, ?_⟩
    · rintro ⟨w, hw, hnone⟩
      exact absurd hnone (hall' w hw)
    · constructor
      · intro _
        exact hall'
      · intro _
        simp [lastPendingBatchRequest, hsigner, hit]
  · have hrun : (lastPendingBatchRequest d signer keeper).run =
        marshalReply d .ErrJSONMarshal (.batchPtr v) := by
      simp [lastPendingBatchRequest, hsigner, hit]
    have hpre' : ∀ u ∈ pre, keeper.GetBatchConfirm u.Nonce u.TokenContract addr ≠ none :=
      fun u hu => Option.isSome_iff_ne_none.mp (hpre u hu)
    have hv' : keeper.GetBatchConfirm v.Nonce v.TokenContract addr = none := by
      cases h : keeper.GetBatchConfirm v.Nonce v.TokenContract addr with
      | none => rfl
      | some c => simp [h] at hv
    refine ⟨?_, ?_⟩
    · intro _
      refine ⟨pre, v, post, hsplit, hpre', hv', hrun, ?_, ?_⟩
      · intro res hres
        rw [hrun, marshalReply_of_ok d _ _ res hres]
      · intro hsorted
        rw [hsplit] at hsorted ⊢
        exact first_is_least (fun x => x.Nonce)
          (fun x => keeper.GetBatchConfirm x.Nonce x.TokenContract addr = none) pre post v
          (fun u hu => hpre' u hu) hsorted
    · constructor
      · intro h
        rw [hrun] at h
        exact absurd h (marshalReply_ne_empty d _ _)
      · intro h
        have hmem : v ∈ keeper.OutgoingTXBatches := by rw [hsplit]; simp
        exact absurd hv' (h v hmem)

/-- The scenarios of C3: batches (1, T), (1, U), (2, T); a signer who confirmed
(1, T) only is answered with batch (1, U), a signer who confirmed all three
with a nil payload. -/
theorem lastPendingBatchRequest_first_unconfirmed_witness :
    sampleDeps.AccAddressFromBech32 "alice" = .ok alice ∧
      sampleDeps.AccAddressFromBech32 "bob" = .ok bob ∧
      (lastPendingBatchRequest sampleDeps "alice" scenarioKeeper).run =
        .returned ⟨some "batch 1 0x0000000000000000000000000000000000000002", none⟩ ∧
      (∃ pre v post, scenarioKeeper.OutgoingTXBatches = pre ++ v :: post ∧
        (∀ u ∈ pre, scenarioKeeper.GetBatchConfirm u.Nonce u.TokenContract alice ≠ none) ∧
        scenarioKeeper.GetBatchConfirm v.Nonce v.TokenContract alice = none ∧
        (lastPendingBatchRequest sampleDeps "alice" scenarioKeeper).run =
          marshalReply sampleDeps .ErrJSONMarshal (.batchPtr v) ∧
        (∀ res, sampleDeps.MarshalJSONIndent (.batchPtr v) = .ok res →
          (lastPendingBatchRequest sampleDeps "alice" scenarioKeeper).run =
            .returned ⟨some res, none⟩) ∧
        (scenarioKeeper.OutgoingTXBatches.Pairwise (fun a b => a.Nonce ≤ b.Nonce) →
          ∀ w ∈ scenarioKeeper.OutgoingTXBatches,
            scenarioKeeper.GetBatchConfirm w.Nonce w.TokenContract alice = none →
              v.Nonce ≤ w.Nonce)) ∧
      (lastPendingBatchRequest sampleDeps "bob" scenarioKeeper).run = .returned ⟨none, none⟩ :=
  ⟨by decide, by decide, by decide,
    (lastPendingBatchRequest_first_unconfirmed sampleDeps scenarioKeeper "alice" alice
      (by decide)).1 ⟨⟨1, tokenU, [11]⟩, by decide, by decide⟩,
    (lastPendingBatchRequest_first_unconfirmed sampleDeps scenarioKeeper "bob" bob
      (by decide)).2.mpr (by decide)⟩

/-! ## The capped listings -/

theorem lastValsetRequestsVisit_collect (items : List Valset) (acc : List Valset) (c : Nat)
    (hc : c < maxValsetRequestsReturned) :
    (iterate items lastValsetRequestsVisit (acc, c)).1 =
      acc ++ items.take (maxValsetRequestsReturned - c) := by
  induction items generalizing acc c with
  | nil => simp [iterate]
  | cons x xs ih =>
    obtain ⟨k, hk⟩ : ∃ k, maxValsetRequestsReturned - c = k + 1 :=
      ⟨maxValsetRequestsReturned - c - 1, by omega⟩
    by_cases hstop : c + 1 ≥ maxValsetRequestsReturned
    · rw [iterate_cons_stop x xs lastValsetRequestsVisit (acc, c) (acc ++ [x], c + 1)
        (by simp [lastValsetRequestsVisit, hstop])]
      have hk0 : k = 0 := by omega
      simp [hk, hk0]
    · rw [iterate_cons_continue x xs lastValsetRequestsVisit (acc, c) (acc ++ [x], c + 1)
        (by simp only [lastValsetRequestsVisit, decide_eq_false hstop])]
      rw [ih (acc ++ [x]) (c + 1) (by omega)]
      have hk1 : maxValsetRequestsReturned - (c + 1) = k := by omega
      simp [hk, hk1]

theorem lastBatchesRequestVisit_collect (items : List OutgoingTxBatch)
    (acc : List OutgoingTxBatch) (hc : acc.length < MaxResults) :
    iterate items lastBatchesRequestVisit acc = acc ++ items.take (MaxResults - acc.length) := by
  induction items generalizing acc with
  | nil => simp [iterate]
  | cons x xs ih =>
    obtain ⟨k, hk⟩ : ∃ k, MaxResults - acc.length = k + 1 :=
      ⟨MaxResults - acc.length - 1, by omega⟩
    by_cases hstop : (acc ++ [x]).length = MaxResults
    · rw [iterate_cons_stop x xs lastBatchesRequestVisit acc (acc ++ [x])
        (by simp only [lastBatchesRequestVisit, decide_eq_true hstop])]
      have hk0 : k = 0 := by simp at hstop; omega
      simp [hk, hk0]
    · rw [iterate_cons_continue x xs lastBatchesRequestVisit acc (acc ++ [x])
        (by simp only [lastBatchesRequestVisit, decide_eq_false hstop])]
      have hlen : (acc ++ [x]).length < MaxResults := by simp at hstop ⊢; omega
      rw [ih (acc ++ [x]) hlen]
      have hk1 : MaxResults - (acc.length + 1) = k := by omega
      simp [hk, hk1]

/-- C4: `lastValsetRequests` collects exactly the first min(n, 5) valsets of the
`IterateValsetRequest` sequence of length n, in that order, so never more
than 5; it returns a nil payload with no error when n = 0 and otherwise hands
the collected valsets to the encoder. -/
theorem lastValsetRequests_first_five (d : Deps) (keeper : Keeper) :
    lastValsetRequestsCollected keeper =
        keeper.ValsetRequest.take (min keeper.ValsetRequest.length 5) ∧
      (lastValsetRequestsCollected keeper).length = min keeper.ValsetRequest.length 5 ∧
      (lastValsetRequestsCollected keeper).length ≤ 5 ∧
      lastValsetRequests d keeper =
        (if keeper.ValsetRequest.length = 0 then
          ⟨.returned ⟨none, none⟩, [.IterateValsetRequest]⟩
        else
          ⟨marshalReply d .ErrJSONMarshal
            (.valsets (keeper.ValsetRequest.take (min keeper.ValsetRequest.length 5))),
            [.IterateValsetRequest]⟩) := by
  have hcol : lastValsetRequestsCollected keeper = keeper.ValsetRequest.take 5 := by
    unfold lastValsetRequestsCollected
    rw [lastValsetRequestsVisit_collect keeper.ValsetRequest [] 0
      (by decide)]
    simp [maxValsetRequestsReturned]
  have htake : keeper.ValsetRequest.take (min keeper.ValsetRequest.length 5) =
      keeper.ValsetRequest.take 5 := by
    rcases le_total keeper.ValsetRequest.length 5 with h | h
    · rw [min_eq_left h, List.take_of_length_le h, List.take_of_length_le (le_refl _)]
    · rw [min_eq_right h]
  have hlen : (lastValsetRequestsCollected keeper).length = min keeper.ValsetRequest.length 5 := by
    rw [hcol, List.length_take, min_comm]
  refine ⟨by rw [hcol, htake], hlen, by rw [hlen]; exact min_le_right _ _, ?_⟩
  unfold lastValsetRequests
  simp only [hlen, htake, hcol]
  by_cases h0 : keeper.ValsetRequest.length = 0
  · simp [h0]
  · have : ¬ min keeper.ValsetRequest.length 5 = 0 := by omega
    simp [h0, this]

/-- Stores with 0, 3 and 7 valsets: nothing, all three, and the first five. -/
theorem lastValsetRequests_first_five_witness :
    lastValsetRequests sampleDeps emptyKeeper =
        ⟨.returned ⟨none, none⟩, [.IterateValsetRequest]⟩ ∧
      lastValsetRequestsCollected scenarioKeeper = [valsetAt 1, valsetAt 2, valsetAt 3] ∧
      lastValsetRequestsCollected (rangeKeeper 7) =
        [valsetAt 1, valsetAt 2, valsetAt 3, valsetAt 4, valsetAt 5] ∧
      lastValsetRequests sampleDeps (rangeKeeper 7) =
        ⟨.returned ⟨some "valsets 1 2 3 4 5", none⟩, [.IterateValsetRequest]⟩ :=
  ⟨(lastValsetRequests_first_five sampleDeps emptyKeeper).2.2.2,
    (lastValsetRequests_first_five sampleDeps scenarioKeeper).1,
    (lastValsetRequests_first_five sampleDeps (rangeKeeper 7)).1,
    (lastValsetRequests_first_five sampleDeps (rangeKeeper 7)).2.2.2⟩

/-- C5: `lastBatchesRequest` collects exactly the first min(n, 100) batches of
the `IterateOutgoingTXBatches` sequence of length n, in store order whatever
their token contracts, so never more than 100; it returns a nil payload with
no error when n = 0 and otherwise hands the collected batches to the
encoder. -/
theorem lastBatchesRequest_first_hundred (d : Deps) (keeper : Keeper) :
    lastBatchesRequestCollected keeper =
        keeper.OutgoingTXBatches.take (min keeper.OutgoingTXBatches.length 100) ∧
      (lastBatchesRequestCollected keeper).length = min keeper.OutgoingTXBatches.length 100 ∧
      (lastBatchesRequestCollected keeper).length ≤ 100 ∧
      lastBatchesRequest d keeper =
        (if keeper.OutgoingTXBatches.length = 0 then
          ⟨.returned ⟨none, none⟩, [.IterateOutgoingTXBatches]⟩
        else
          ⟨marshalReply d .ErrJSONMarshal
            (.batches (keeper.OutgoingTXBatches.take (min keeper.OutgoingTXBatches.length 100))),
            [.IterateOutgoingTXBatches]⟩) := by
  have hcol : lastBatchesRequestCollected keeper = keeper.OutgoingTXBatches.take 100 := by
    unfold lastBatchesRequestCollected
    rw [lastBatchesRequestVisit_collect keeper.OutgoingTXBatches [] (by decide)]
    simp [MaxResults]
  have htake : keeper.OutgoingTXBatches.take (min keeper.OutgoingTXBatches.length 100) =
      keeper.OutgoingTXBatches.take 100 := by
    rcases le_total keeper.OutgoingTXBatches.length 100 with h | h
    · rw [min_eq_left h, List.take_of_length_le h, List.take_of_length_le (le_refl _)]
    · rw [min_eq_right h]
  have hlen : (lastBatchesRequestCollected keeper).length =
      min keeper.OutgoingTXBatches.length 100 := by
    rw [hcol, List.length_take, min_comm]
  refine ⟨by rw [hcol, htake], hlen, by rw [hlen]; exact min_le_right _ _, ?_⟩
  unfold lastBatchesRequest
  simp only [hlen, htake, hcol]
  by_cases h0 : keeper.OutgoingTXBatches.length = 0
  · simp [h0]
  · have : ¬ min keeper.OutgoingTXBatches.length 100 = 0 := by omega
    simp [h0, this]

/-- Stores with 0 and 3 batches: nothing, and all three across both token
contracts in store order. -/
theorem lastBatchesRequest_first_hundred_witness :
    lastBatchesRequest sampleDeps emptyKeeper =
        ⟨.returned ⟨none, none⟩, [.IterateOutgoingTXBatches]⟩ ∧
      lastBatchesRequestCollected scenarioKeeper =
        [⟨1, tokenT, [10]⟩, ⟨1, tokenU, [11]⟩, ⟨2, tokenT, [12]⟩] ∧
      (lastBatchesRequestCollected (rangeKeeper 103)).length = 100 :=
  ⟨(lastBatchesRequest_first_hundred sampleDeps emptyKeeper).2.2.2,
    (lastBatchesRequest_first_hundred sampleDeps scenarioKeeper).1,
    (lastBatchesRequest_first_hundred sampleDeps (rangeKeeper 103)).2.1.trans (by decide)⟩

/-! ## Lookups, argument checks and the router -/

theorem iterate_collect_all {α : Type} (items acc : List α) :
    iterate items (fun (confirms : List α) c => (confirms ++ [c], false)) acc = acc ++ items := by
  induction items generalizing acc with
  | nil => simp [iterate]
  | cons x xs ih =>
    rw [iterate_cons_continue x xs _ acc (acc ++ [x]) rfl, ih]
    simp

theorem marshalReply_isReturned (d : Deps) (root : ErrKind) (v : Encodable) :
    (marshalReply d root v).isReturned = true := by
  unfold marshalReply
  cases d.MarshalJSONIndent v <;> rfl

/-- C6: the absent-lookup asymmetry on one store. For a nonce that parses and a
token contract that passes `ValidateBasic`, `queryBatch` with no batch stored
under (token, nonce) returns no payload and the `ErrUnknownRequest` error
"Can not find tx batch"; for a nonce that parses, `queryValsetRequest` with no
valset stored returns a nil payload and no error. The same holds through the
router. -/
theorem absent_batch_error_absent_valset_empty (d : Deps) (keeper : Keeper) :
    (∀ (nonceStr tokenStr : String) (n : UInt64Nonce),
        parseNonce d nonceStr = .ok n →
        d.ValidateBasic (d.NewEthereumAddress tokenStr) = none →
        keeper.GetOutgoingTXBatch (d.NewEthereumAddress tokenStr) n = none →
        (queryBatch d nonceStr tokenStr keeper).run =
            .returned ⟨none, some (Wrap .ErrUnknownRequest "Can not find tx batch")⟩ ∧
          (Wrap .ErrUnknownRequest "Can not find tx batch").kind = some .ErrUnknownRequest ∧
          NewQuerier d keeper [QueryBatch, nonceStr, tokenStr] =
            queryBatch d nonceStr tokenStr keeper) ∧
      (∀ (nonceStr : String) (rest : List String) (n : UInt64Nonce),
        parseNonce d nonceStr = .ok n →
        keeper.GetValsetRequest n = none →
        (queryValsetRequest d (nonceStr :: rest) keeper).run = .returned ⟨none, none⟩ ∧
          NewQuerier d keeper (QueryValsetRequest :: nonceStr :: rest) =
            queryValsetRequest d (nonceStr :: rest) keeper) := by
  refine ⟨?_, ?_⟩
  · intro nonceStr tokenStr n hn ht hb
    refine ⟨?_, rfl, ?_⟩
    · simp [queryBatch, hn, ht, hb]
    · simp [NewQuerier, index, QueryBatch, QueryCurrentValset, QueryValsetRequest,
        QueryValsetConfirm, QueryValsetConfirmsByNonce, QueryLastValsetRequests,
        QueryLastPendingValsetRequestByAddr]
  · intro nonceStr rest n hn hv
    refine ⟨?_, ?_⟩
    · simp [queryValsetRequest, index, hn, hv]
    · simp [NewQuerier, index, QueryCurrentValset, QueryValsetRequest]

/-- The scenario of C6: nothing is stored at nonce 7, for token T or as a
valset. -/
theorem absent_batch_error_absent_valset_empty_witness :
    parseNonce sampleDeps "7" = .ok 7 ∧
      sampleDeps.ValidateBasic (sampleDeps.NewEthereumAddress tokenT.hex) = none ∧
      scenarioKeeper.GetOutgoingTXBatch (sampleDeps.NewEthereumAddress tokenT.hex) 7 = none ∧
      scenarioKeeper.GetValsetRequest 7 = none ∧
      ((queryBatch sampleDeps "7" tokenT.hex scenarioKeeper).run =
          .returned ⟨none, some (Wrap .ErrUnknownRequest "Can not find tx batch")⟩ ∧
        (Wrap .ErrUnknownRequest "Can not find tx batch").kind = some .ErrUnknownRequest ∧
        NewQuerier sampleDeps scenarioKeeper [QueryBatch, "7", tokenT.hex] =
          queryBatch sampleDeps "7" tokenT.hex scenarioKeeper) ∧
      ((queryValsetRequest sampleDeps ["7"] scenarioKeeper).run = .returned ⟨none, none⟩ ∧
        NewQuerier sampleDeps scenarioKeeper [QueryValsetRequest, "7"] =
          queryValsetRequest sampleDeps ["7"] scenarioKeeper) :=
  ⟨by decide, by decide, by decide, by decide,
    (absent_batch_error_absent_valset_empty sampleDeps scenarioKeeper).1 "7" tokenT.hex 7
      (by decide) (by decide) (by decide),
    (absent_batch_error_absent_valset_empty sampleDeps scenarioKeeper).2 "7" [] 7
      (by decide) (by decide)⟩

/-- C7 (what the code does): when the nonce parses and the token contract fails
`ValidateBasic`, `queryBatch` calls `Error` on the nil error left by
`parseNonce` and aborts, before any keeper read; no error value is returned. -/
theorem queryBatch_invalid_token_aborts (d : Deps) (keeper : Keeper)
    (nonceStr tokenStr : String) (n : UInt64Nonce)
    (hnonce : parseNonce d nonceStr = .ok n)
    (htoken : d.ValidateBasic (d.NewEthereumAddress tokenStr) ≠ none) :
    queryBatch d nonceStr tokenStr keeper = ⟨.aborted .nilDereference, []⟩ ∧
      (queryBatch d nonceStr tokenStr keeper).run.isReturned = false := by
  have h : (d.ValidateBasic (d.NewEthereumAddress tokenStr)).isSome = true :=
    Option.isSome_iff_ne_none.mpr htoken
  have hq : queryBatch d nonceStr tokenStr keeper = ⟨.aborted .nilDereference, []⟩ := by
    simp [queryBatch, hnonce, h]
  exact ⟨hq, by rw [hq]; rfl⟩

/-- The failing input of C7: nonce "1" and token contract "xyz". -/
theorem queryBatch_invalid_token_aborts_witness :
    parseNonce sampleDeps "1" = .ok 1 ∧
      sampleDeps.ValidateBasic (sampleDeps.NewEthereumAddress "xyz") ≠ none ∧
      queryBatch sampleDeps "1" "xyz" scenarioKeeper = ⟨.aborted .nilDereference, []⟩ ∧
      (queryBatch sampleDeps "1" "xyz" scenarioKeeper).run.isReturned = false :=
  ⟨by decide, by decide,
    queryBatch_invalid_token_aborts sampleDeps scenarioKeeper "1" "xyz" 1 (by decide) (by decide)⟩

theorem queryCurrentValset_isReturned (d : Deps) (keeper : Keeper) :
    (queryCurrentValset d keeper).run.isReturned = true :=
  marshalReply_isReturned d _ _

theorem queryValsetRequest_isReturned (d : Deps) (keeper : Keeper) (a : String)
    (rest : List String) : (queryValsetRequest d (a :: rest) keeper).run.isReturned = true := by
  simp only [queryValsetRequest, index, List.get?]
  cases parseNonce d a with
  | error e => rfl
  | ok n =>
    cases h : keeper.GetValsetRequest n with
    | none => simp [h, Run.isReturned]
    | some v => simp [h, marshalReply_isReturned]

theorem queryValsetConfirm_isReturned (d : Deps) (keeper : Keeper) (a b : String)
    (rest : List String) :
    (queryValsetConfirm d (a :: b :: rest) keeper).run.isReturned = true := by
  simp only [queryValsetConfirm, index, List.get?]
  cases parseNonce d a with
  | error e => rfl
  | ok n =>
    cases d.AccAddressFromBech32 b with
    | error e => rfl
    | ok addr =>
      cases h : keeper.GetValsetConfirm n addr with
      | none => simp [h, Run.isReturned]
      | some v => simp [h, marshalReply_isReturned]

theorem queryAllValsetConfirms_isReturned (d : Deps) (keeper : Keeper) (a : String) :
    (queryAllValsetConfirms d a keeper).run.isReturned = true := by
  simp only [queryAllValsetConfirms]
  cases parseNonce d a with
  | error e => rfl
  | ok n =>
    simp only []
    split
    · rfl
    · exact marshalReply_isReturned d _ _

theorem queryAllBatchConfirms_isReturned (d : Deps) (keeper : Keeper) (a b : String) :
    (queryAllBatchConfirms d a b keeper).run.isReturned = true := by
  simp only [queryAllBatchConfirms]
  cases parseNonce d a with
  | error e => rfl
  | ok n =>
    simp only []
    split
    · rfl
    · exact marshalReply_isReturned d _ _

theorem lastValsetRequests_isReturned (d : Deps) (keeper : Keeper) :
    (lastValsetRequests d keeper).run.isReturned = true := by
  simp only [lastValsetRequests]
  split
  · rfl
  · exact marshalReply_isReturned d _ _

theorem lastBatchesRequest_isReturned (d : Deps) (keeper : Keeper) :
    (lastBatchesRequest d keeper).run.isReturned = true := by
  simp only [lastBatchesRequest]
  split
  · rfl
  · exact marshalReply_isReturned d _ _

theorem lastPendingValsetRequest_isReturned (d : Deps) (keeper : Keeper) (a : String) :
    (lastPendingValsetRequest d a keeper).run.isReturned = true := by
  simp only [lastPendingValsetRequest]
  cases d.AccAddressFromBech32 a with
  | error e => rfl
  | ok addr =>
    simp only []
    split
    · rfl
    · exact marshalReply_isReturned d _ _

theorem lastPendingBatchRequest_isReturned (d : Deps) (keeper : Keeper) (a : String) :
    (lastPendingBatchRequest d a keeper).run.isReturned = true := by
  simp only [lastPendingBatchRequest]
  cases d.AccAddressFromBech32 a with
  | error e => rfl
  | ok addr =>
    simp only []
    split
    · rfl
    · exact marshalReply_isReturned d _ _

theorem queryBatch_not_indexOutOfRange (d : Deps) (keeper : Keeper) (a b : String) :
    (queryBatch d a b keeper).run.isIndexOutOfRange = false := by
  simp only [queryBatch]
  cases parseNonce d a with
  | error e => rfl
  | ok n =>
    simp only []
    split
    · rfl
    · cases h : keeper.GetOutgoingTXBatch (d.NewEthereumAddress b) n with
      | none => rfl
      | some v =>
        simp only [marshalReply]
        cases d.MarshalJSONIndent (.batchPtr v) <;> rfl

theorem queryBatch_isReturned (d : Deps) (keeper : Keeper) (a b : String)
    (hvalid : d.ValidateBasic (d.NewEthereumAddress b) = none) :
    (queryBatch d a b keeper).run.isReturned = true := by
  simp only [queryBatch]
  cases parseNonce d a with
  | error e => rfl
  | ok n =>
    simp only [hvalid]
    cases h : keeper.GetOutgoingTXBatch (d.NewEthereumAddress b) n with
    | none => simp [Run.isReturned]
    | some v => simp [marshalReply_isReturned]

theorem isReturned_not_indexOutOfRange (r : Run) (h : r.isReturned = true) :
    r.isIndexOutOfRange = false := by
  cases r with
  | returned _ => rfl
  | aborted _ => simp [Run.isReturned] at h

theorem NewQuerier_currentValset (d : Deps) (keeper : Keeper) (rest : List String) :
    NewQuerier d keeper (QueryCurrentValset :: rest) = queryCurrentValset d keeper := by
  simp [NewQuerier, index]

theorem NewQuerier_valsetRequest (d : Deps) (keeper : Keeper) (rest : List String) :
    NewQuerier d keeper (QueryValsetRequest :: rest) = queryValsetRequest d rest keeper := by
  simp [NewQuerier, index, QueryCurrentValset, QueryValsetRequest]

theorem NewQuerier_valsetConfirm (d : Deps) (keeper : Keeper) (rest : List String) :
    NewQuerier d keeper (QueryValsetConfirm :: rest) = queryValsetConfirm d rest keeper := by
  simp [NewQuerier, index, QueryCurrentValset, QueryValsetRequest, QueryValsetConfirm]

theorem NewQuerier_valsetConfirms (d : Deps) (keeper : Keeper) (a : String)
    (rest : List String) :
    NewQuerier d keeper (QueryValsetConfirmsByNonce :: a :: rest) =
      queryAllValsetConfirms d a keeper := by
  simp [NewQuerier, index, QueryCurrentValset, QueryValsetRequest, QueryValsetConfirm,
    QueryValsetConfirmsByNonce]

theorem NewQuerier_lastValsetRequests (d : Deps) (keeper : Keeper) (rest : List String) :
    NewQuerier d keeper (QueryLastValsetRequests :: rest) = lastValsetRequests d keeper := by
  simp [NewQuerier, index, QueryCurrentValset, QueryValsetRequest, QueryValsetConfirm,
    QueryValsetConfirmsByNonce, QueryLastValsetRequests]

theorem NewQuerier_lastPendingValsetRequest (d : Deps) (keeper : Keeper) (a : String)
    (rest : List String) :
    NewQuerier d keeper (QueryLastPendingValsetRequestByAddr :: a :: rest) =
      lastPendingValsetRequest d a keeper := by
  simp [NewQuerier, index, QueryCurrentValset, QueryValsetRequest, QueryValsetConfirm,
    QueryValsetConfirmsByNonce, QueryLastValsetRequests, QueryLastPendingValsetRequestByAddr]

theorem NewQuerier_batch (d : Deps) (keeper : Keeper) (a b : String) (rest : List String) :
    NewQuerier d keeper (QueryBatch :: a :: b :: rest) = queryBatch d a b keeper := by
  simp [NewQuerier, index, QueryCurrentValset, QueryValsetRequest, QueryValsetConfirm,
    QueryValsetConfirmsByNonce, QueryLastValsetRequests, QueryLastPendingValsetRequestByAddr,
    QueryBatch]

theorem NewQuerier_batchConfirms (d : Deps) (keeper : Keeper) (a b : String)
    (rest : List String) :
    NewQuerier d keeper (QueryBatchConfirms :: a :: b :: rest) =
      queryAllBatchConfirms d a b keeper := by
  simp [NewQuerier, index, QueryCurrentValset, QueryValsetRequest, QueryValsetConfirm,
    QueryValsetConfirmsByNonce, QueryLastValsetRequests, QueryLastPendingValsetRequestByAddr,
    QueryBatch, QueryBatchConfirms]

theorem NewQuerier_lastPendingBatchRequest (d : Deps) (keeper : Keeper) (a : String)
    (rest : List String) :
    NewQuerier d keeper (QueryLastPendingBatchRequestByAddr :: a :: rest) =
      lastPendingBatchRequest d a keeper := by
  simp [NewQuerier, index, QueryCurrentValset, QueryValsetRequest, QueryValsetConfirm,
    QueryValsetConfirmsByNonce, QueryLastValsetRequests, QueryLastPendingValsetRequestByAddr,
    QueryBatch, QueryBatchConfirms, QueryLastPendingBatchRequestByAddr]

theorem NewQuerier_lastBatches (d : Deps) (keeper : Keeper) (rest : List String) :
    NewQuerier d keeper (QueryOutgoingTxBatches :: rest) = lastBatchesRequest d keeper := by
  simp [NewQuerier, index, QueryCurrentValset, QueryValsetRequest, QueryValsetConfirm,
    QueryValsetConfirmsByNonce, QueryLastValsetRequests, QueryLastPendingValsetRequestByAddr,
    QueryBatch, QueryBatchConfirms, QueryLastPendingBatchRequestByAddr, QueryOutgoingTxBatches]

theorem NewQuerier_default (d : Deps) (keeper : Keeper) (name : String) (rest : List String)
    (h1 : name ≠ QueryCurrentValset) (h2 : name ≠ QueryValsetRequest)
    (h3 : name ≠ QueryValsetConfirm) (h4 : name ≠ QueryValsetConfirmsByNonce)
    (h5 : name ≠ QueryLastValsetRequests) (h6 : name ≠ QueryLastPendingValsetRequestByAddr)
    (h7 : name ≠ QueryBatch) (h8 : name ≠ QueryBatchConfirms)
    (h9 : name ≠ QueryLastPendingBatchRequestByAddr) (h10 : name ≠ QueryOutgoingTxBatches) :
    NewQuerier d keeper (name :: rest) =
      ⟨.returned ⟨none, some (Wrap .ErrUnknownRequest
        ("unknown " ++ d.ModuleName ++ " query endpoint"))⟩, []⟩ := by
  simp [NewQuerier, index, h1, h2, h3, h4, h5, h6, h7, h8, h9, h10]

/-- With at least as many segments after the query name as the routed handler
indexes, the run is no index-out-of-range abort, and it hands back a
`(res, err)` pair unless it is the `queryBatch` call with a token contract
that fails `ValidateBasic`. -/
theorem NewQuerier_of_enough_args (d : Deps) (keeper : Keeper) (name : String)
    (rest : List String) (hlen : argsConsumed name ≤ rest.length) :
    (NewQuerier d keeper (name :: rest)).run.isIndexOutOfRange = false ∧
      ((name = QueryBatch → ∀ nonceStr tokenStr tail, rest = nonceStr :: tokenStr :: tail →
          d.ValidateBasic (d.NewEthereumAddress tokenStr) = none) →
        (NewQuerier d keeper (name :: rest)).run.isReturned = true) := by
  have key : ∀ r : Run, r.isReturned = true →
      r.isIndexOutOfRange = false ∧
        ((name = QueryBatch → ∀ nonceStr tokenStr tail, rest = nonceStr :: tokenStr :: tail →
          d.ValidateBasic (d.NewEthereumAddress tokenStr) = none) → r.isReturned = true) :=
    fun r hr => ⟨isReturned_not_indexOutOfRange r hr, fun _ => hr⟩
  by_cases h1 : name = QueryCurrentValset
  · subst h1
    rw [NewQuerier_currentValset]
    exact key _ (queryCurrentValset_isReturned d keeper)
  by_cases h2 : name = QueryValsetRequest
  · subst h2
    rw [NewQuerier_valsetRequest]
    rcases rest with _ | ⟨a, rest⟩
    · exact absurd hlen (by decide)
    · exact key _ (queryValsetRequest_isReturned d keeper a rest)
  by_cases h3 : name = QueryValsetConfirm
  · subst h3
    rw [NewQuerier_valsetConfirm]
    rcases rest with _ | ⟨a, _ | ⟨b, rest⟩⟩
    · exact absurd hlen (by decide)
    · rw [show argsConsumed QueryValsetConfirm = 2 by decide] at hlen
      simp at hlen
    · exact key _ (queryValsetConfirm_isReturned d keeper a b rest)
  by_cases h4 : name = QueryValsetConfirmsByNonce
  · subst h4
    rcases rest with _ | ⟨a, rest⟩
    · exact absurd hlen (by decide)
    · rw [NewQuerier_valsetConfirms]
      exact key _ (queryAllValsetConfirms_isReturned d keeper a)
  by_cases h5 : name = QueryLastValsetRequests
  · subst h5
    rw [NewQuerier_lastValsetRequests]
    exact key _ (lastValsetRequests_isReturned d keeper)
  by_cases h6 : name = QueryLastPendingValsetRequestByAddr
  · subst h6
    rcases rest with _ | ⟨a, rest⟩
    · exact absurd hlen (by decide)
    · rw [NewQuerier_lastPendingValsetRequest]
      exact key _ (lastPendingValsetRequest_isReturned d keeper a)
  by_cases h7 : name = QueryBatch
  · subst h7
    rcases rest with _ | ⟨a, _ | ⟨b, rest⟩⟩
    · exact absurd hlen (by decide)
    · rw [show argsConsumed QueryBatch = 2 by decide] at hlen
      simp at hlen
    · rw [NewQuerier_batch]
      exact ⟨queryBatch_not_indexOutOfRange d keeper a b,
        fun hvalid => queryBatch_isReturned d keeper a b (hvalid rfl a b rest rfl)⟩
  by_cases h8 : name = QueryBatchConfirms
  · subst h8
    rcases rest with _ | ⟨a, _ | ⟨b, rest⟩⟩
    · exact absurd hlen (by decide)
    · rw [show argsConsumed QueryBatchConfirms = 2 by decide] at hlen
      simp at hlen
    · rw [NewQuerier_batchConfirms]
      exact key _ (queryAllBatchConfirms_isReturned d keeper a b)
  by_cases h9 : name = QueryLastPendingBatchRequestByAddr
  · subst h9
    rcases rest with _ | ⟨a, rest⟩
    · exact absurd hlen (by decide)
    · rw [NewQuerier_lastPendingBatchRequest]
      exact key _ (lastPendingBatchRequest_isReturned d keeper a)
  by_cases h10 : name = QueryOutgoingTxBatches
  · subst h10
    rw [NewQuerier_lastBatches]
    exact key _ (lastBatchesRequest_isReturned d keeper)
  rw [NewQuerier_default d keeper name rest h1 h2 h3 h4 h5 h6 h7 h8 h9 h10]
  exact key _ rfl

/-- The paths on which an index expression is out of bounds: the query name is
followed by fewer segments than the routed handler indexes, except that
`valsetConfirm` with a single segment that fails to parse as a nonce returns
before indexing the second one. -/
theorem NewQuerier_indexOutOfRange_iff (d : Deps) (keeper : Keeper) (name : String)
    (rest : List String) :
    (NewQuerier d keeper (name :: rest)).run.isIndexOutOfRange = true ↔
      (rest.length < argsConsumed name ∧
        (name = QueryValsetConfirm → ∀ a, rest = [a] → ∃ n, parseNonce d a = .ok n)) := by
  by_cases hlen : argsConsumed name ≤ rest.length
  · have h := (NewQuerier_of_enough_args d keeper name rest hlen).1
    constructor
    · intro h'
      rw [h] at h'
      exact absurd h' (by decide)
    · intro h'
      omega
  · have hlt : rest.length < argsConsumed name := by omega
    have hargs := hlt
    unfold argsConsumed at hargs
    split_ifs at hargs with h1 h2 h3 h4 h5 h6 h7
    · subst h1
      have hr : rest = [] := by
        cases rest with
        | nil => rfl
        | cons a t => simp at hargs
      subst hr
      rw [NewQuerier_valsetRequest]
      constructor
      · intro _
        exact ⟨hlt, fun h => absurd h (by decide)⟩
      · intro _
        simp [queryValsetRequest, index, Run.isIndexOutOfRange]
    · subst h2
      rw [NewQuerier_valsetConfirm]
      rcases rest with _ | ⟨a, _ | ⟨b, t⟩⟩
      · constructor
        · intro _
          exact ⟨hlt, fun _ a h => absurd h (by simp)⟩
        · intro _
          simp [queryValsetConfirm, index, Run.isIndexOutOfRange]
      · cases hp : parseNonce d a with
        | error e =>
          constructor
          · intro h
            simp [queryValsetConfirm, index, hp, Run.isIndexOutOfRange] at h
          · intro h
            obtain ⟨n, hn⟩ := h.2 rfl a rfl
            rw [hp] at hn
            exact absurd hn (by simp)
        | ok n =>
          constructor
          · intro _
            refine ⟨hlt, fun _ a' h => ?_⟩
            have : a = a' := by simpa using h
            subst this
            exact ⟨n, hp⟩
          · intro _
            simp [queryValsetConfirm, index, hp, Run.isIndexOutOfRange]
      · simp at hargs
        omega
    · subst h3
      have hr : rest = [] := by
        cases rest with
        | nil => rfl
        | cons a t => simp at hargs
      subst hr
      constructor
      · intro _
        exact ⟨hlt, fun h => absurd h (by decide)⟩
      · intro _
        simp [NewQuerier, index, QueryCurrentValset, QueryValsetRequest, QueryValsetConfirm,
          QueryValsetConfirmsByNonce, Run.isIndexOutOfRange]
    · subst h4
      have hr : rest = [] := by
        cases rest with
        | nil => rfl
        | cons a t => simp at hargs
      subst hr
      constructor
      · intro _
        exact ⟨hlt, fun h => absurd h (by decide)⟩
      · intro _
        simp [NewQuerier, index, QueryCurrentValset, QueryValsetRequest, QueryValsetConfirm,
          QueryValsetConfirmsByNonce, QueryLastValsetRequests,
          QueryLastPendingValsetRequestByAddr, Run.isIndexOutOfRange]
    · subst h5
      constructor
      · intro _
        exact ⟨hlt, fun h => absurd h (by decide)⟩
      · intro _
        rcases rest with _ | ⟨a, _ | ⟨b, t⟩⟩
        · simp [NewQuerier, index, QueryCurrentValset, QueryValsetRequest, QueryValsetConfirm,
            QueryValsetConfirmsByNonce, QueryLastValsetRequests,
            QueryLastPendingValsetRequestByAddr, QueryBatch, Run.isIndexOutOfRange]
        · simp [NewQuerier, index, QueryCurrentValset, QueryValsetRequest, QueryValsetConfirm,
            QueryValsetConfirmsByNonce, QueryLastValsetRequests,
            QueryLastPendingValsetRequestByAddr, QueryBatch, Run.isIndexOutOfRange]
        · simp at hargs
          omega
    · subst h6
      constructor
      · intro _
        exact ⟨hlt, fun h => absurd h (by decide)⟩
      · intro _
        rcases rest with _ | ⟨a, _ | ⟨b, t⟩⟩
        · simp [NewQuerier, index, QueryCurrentValset, QueryValsetRequest, QueryValsetConfirm,
            QueryValsetConfirmsByNonce, QueryLastValsetRequests,
            QueryLastPendingValsetRequestByAddr, QueryBatch, QueryBatchConfirms,
            Run.isIndexOutOfRange]
        · simp [NewQuerier, index, QueryCurrentValset, QueryValsetRequest, QueryValsetConfirm,
            QueryValsetConfirmsByNonce, QueryLastValsetRequests,
            QueryLastPendingValsetRequestByAddr, QueryBatch, QueryBatchConfirms,
            Run.isIndexOutOfRange]
        · simp at hargs
          omega
    · subst h7
      have hr : rest = [] := by
        cases rest with
        | nil => rfl
        | cons a t => simp at hargs
      subst hr
      constructor
      · intro _
        exact ⟨hlt, fun h => absurd h (by decide)⟩
      · intro _
        simp [NewQuerier, index, QueryCurrentValset, QueryValsetRequest, QueryValsetConfirm,
          QueryValsetConfirmsByNonce, QueryLastValsetRequests,
          QueryLastPendingValsetRequestByAddr, QueryBatch, QueryBatchConfirms,
          QueryLastPendingBatchRequestByAddr, Run.isIndexOutOfRange]
    · omega

/-- C8 (as amended): for every non-empty path whose query name is followed by
at least as many segments as the routed handler indexes, no index into the
path is out of bounds, and, the `queryBatch` call with a token contract that
fails `ValidateBasic` set aside, the router hands back a `(res, err)` pair.
An index is out of bounds exactly on the empty path and on a path whose query
name is followed by fewer segments than that, except that `valsetConfirm`
followed by a single segment that fails to parse as a nonce returns its
error before indexing the second segment. -/
theorem NewQuerier_enough_args_in_bounds (d : Deps) (keeper : Keeper) :
    (∀ (name : String) (rest : List String), argsConsumed name ≤ rest.length →
        (NewQuerier d keeper (name :: rest)).run.isIndexOutOfRange = false ∧
          ((name = QueryBatch → ∀ nonceStr tokenStr tail, rest = nonceStr :: tokenStr :: tail →
              d.ValidateBasic (d.NewEthereumAddress tokenStr) = none) →
            (NewQuerier d keeper (name :: rest)).run.isReturned = true)) ∧
      (∀ (name : String) (rest : List String),
        (NewQuerier d keeper (name :: rest)).run.isIndexOutOfRange = true ↔
          (rest.length < argsConsumed name ∧
            (name = QueryValsetConfirm → ∀ a, rest = [a] → ∃ n, parseNonce d a = .ok n))) ∧
      NewQuerier d keeper [] = ⟨.aborted (.indexOutOfRange 0 0), []⟩ := by
  refine ⟨?_, ?_, ?_⟩
  · intro name rest hlen
    exact NewQuerier_of_enough_args d keeper name rest hlen
  · intro name rest
    exact NewQuerier_indexOutOfRange_iff d keeper name rest
  · simp [NewQuerier, index]

/-- Paths with enough arguments (an unknown name, a batch lookup); the path
`valsetConfirm/abc`, one segment short yet in bounds; and the path
`valsetConfirm/1`, whose second segment is indexed and missing. -/
theorem NewQuerier_enough_args_in_bounds_witness :
    argsConsumed "allBridgedDenominators" ≤ ([] : List String).length ∧
      argsConsumed QueryBatch ≤ ["7", tokenT.hex].length ∧
      (NewQuerier sampleDeps scenarioKeeper ["allBridgedDenominators"]).run.isReturned = true ∧
      (NewQuerier sampleDeps scenarioKeeper [QueryBatch, "7", tokenT.hex]).run.isReturned = true ∧
      (NewQuerier sampleDeps scenarioKeeper
        [QueryBatch, "7", tokenT.hex]).run.isIndexOutOfRange = false ∧
      ¬ (NewQuerier sampleDeps scenarioKeeper
        [QueryValsetConfirm, "abc"]).run.isIndexOutOfRange = true ∧
      (NewQuerier sampleDeps scenarioKeeper
        [QueryValsetConfirm, "1"]).run.isIndexOutOfRange = true ∧
      NewQuerier sampleDeps scenarioKeeper [] = ⟨.aborted (.indexOutOfRange 0 0), []⟩ :=
  ⟨by decide, by decide,
    ((NewQuerier_enough_args_in_bounds sampleDeps scenarioKeeper).1 "allBridgedDenominators" []
      (by decide)).2 (fun h => absurd h (by decide)),
    ((NewQuerier_enough_args_in_bounds sampleDeps scenarioKeeper).1 QueryBatch ["7", tokenT.hex]
      (by decide)).2 (fun _ nonceStr tokenStr tail h => by
        injection h with _ h
        injection h with h _
        subst h
        decide),
    ((NewQuerier_enough_args_in_bounds sampleDeps scenarioKeeper).1 QueryBatch ["7", tokenT.hex]
      (by decide)).1,
    (fun h => by
      obtain ⟨n, hn⟩ :=
        (((NewQuerier_enough_args_in_bounds sampleDeps scenarioKeeper).2.1 QueryValsetConfirm
          ["abc"]).mp h).2 rfl "abc" rfl
      have hbad : parseNonce sampleDeps "abc" = .error (.plain "invalid syntax") := by decide
      rw [hbad] at hn
      cases hn),
    ((NewQuerier_enough_args_in_bounds sampleDeps scenarioKeeper).2.1 QueryValsetConfirm
      ["1"]).mpr ⟨by decide, (fun _ a h => by
        injection h with h _
        subst h
        exact ⟨1, by decide⟩)⟩,
    (NewQuerier_enough_args_in_bounds sampleDeps scenarioKeeper).2.2⟩

/-- C8 (counterexample): on the empty path, on a recognised name with no
argument, and on `batch` with one argument, the router aborts with an index
out of range and hands back nothing. -/
theorem NewQuerier_short_path_aborts :
    (NewQuerier sampleDeps scenarioKeeper []).run = .aborted (.indexOutOfRange 0 0) ∧
      (NewQuerier sampleDeps scenarioKeeper [QueryValsetRequest]).run =
        .aborted (.indexOutOfRange 0 0) ∧
      (NewQuerier sampleDeps scenarioKeeper [QueryValsetConfirm, "1"]).run =
        .aborted (.indexOutOfRange 1 1) ∧
      (NewQuerier sampleDeps scenarioKeeper [QueryBatch, "1"]).run =
        .aborted (.indexOutOfRange 2 2) ∧
      ¬ ∀ path : List String,
        (NewQuerier sampleDeps scenarioKeeper path).run.isReturned = true ∧
          (NewQuerier sampleDeps scenarioKeeper path).run.isIndexOutOfRange = false := by
  refine ⟨by decide, by decide, by decide, by decide, ?_⟩
  intro h
  exact absurd (h []).1 (by decide)

/-- C9 (what the code does): on a nonce text that fails to parse, and on a
signer text that fails to decode, every handler returns before any keeper
read. The error is wrapped under `ErrInvalidRequest` by `queryValsetConfirm`,
`queryAllValsetConfirms`, `queryAllBatchConfirms` and the two pending scans,
whereas `queryValsetRequest` hands back the parser's error unwrapped and
`queryBatch` wraps it under `ErrUnknownRequest`. -/
theorem malformed_argument_replies (d : Deps) (keeper : Keeper) :
    (∀ (nonceStr : String) (err : GoError), parseNonce d nonceStr = .error err →
        (∀ rest, queryValsetRequest d (nonceStr :: rest) keeper =
          ⟨.returned ⟨none, some err⟩, []⟩) ∧
        (∀ rest, queryValsetConfirm d (nonceStr :: rest) keeper =
          ⟨.returned ⟨none, some (Wrap .ErrInvalidRequest err.Error)⟩, []⟩) ∧
        queryAllValsetConfirms d nonceStr keeper =
          ⟨.returned ⟨none, some (Wrap .ErrInvalidRequest err.Error)⟩, []⟩ ∧
        (∀ tokenStr, queryBatch d nonceStr tokenStr keeper =
          ⟨.returned ⟨none, some (Wrap .ErrUnknownRequest err.Error)⟩, []⟩) ∧
        (∀ tokenStr, queryAllBatchConfirms d nonceStr tokenStr keeper =
          ⟨.returned ⟨none, some (Wrap .ErrInvalidRequest err.Error)⟩, []⟩)) ∧
      (∀ (addrStr : String) (err : GoError), d.AccAddressFromBech32 addrStr = .error err →
        (∀ nonceStr n rest, parseNonce d nonceStr = .ok n →
          queryValsetConfirm d (nonceStr :: addrStr :: rest) keeper =
            ⟨.returned ⟨none, some (Wrap .ErrInvalidRequest err.Error)⟩, []⟩) ∧
        lastPendingValsetRequest d addrStr keeper =
          ⟨.returned ⟨none, some (Wrap .ErrInvalidRequest "address invalid")⟩, []⟩ ∧
        lastPendingBatchRequest d addrStr keeper =
          ⟨.returned ⟨none, some (Wrap .ErrInvalidRequest "address invalid")⟩, []⟩) := by
  refine ⟨?_, ?_⟩
  · intro nonceStr err hbad
    refine ⟨?_, ?_, ?_, ?_, ?_⟩
    · intro rest; simp [queryValsetRequest, index, hbad]
    · intro rest; simp [queryValsetConfirm, index, hbad]
    · simp [queryAllValsetConfirms, hbad]
    · intro tokenStr; simp [queryBatch, hbad]
    · intro tokenStr; simp [queryAllBatchConfirms, hbad]
  · intro addrStr err hbad
    refine ⟨?_, ?_, ?_⟩
    · intro nonceStr n rest hn; simp [queryValsetConfirm, index, hn, hbad]
    · simp [lastPendingValsetRequest, hbad]
    · simp [lastPendingBatchRequest, hbad]

/-- The failing inputs of C9: the nonce text "abc" given to `queryBatch` and to
`queryValsetRequest`; neither error is of the `ErrInvalidRequest` class. -/
theorem malformed_argument_replies_witness :
    parseNonce sampleDeps "abc" = .error (.plain "invalid syntax") ∧
      queryBatch sampleDeps "abc" tokenT.hex scenarioKeeper =
        ⟨.returned ⟨none, some (Wrap .ErrUnknownRequest "invalid syntax")⟩, []⟩ ∧
      (Wrap .ErrUnknownRequest "invalid syntax").kind ≠ some .ErrInvalidRequest ∧
      queryValsetRequest sampleDeps ["abc"] scenarioKeeper =
        ⟨.returned ⟨none, some (.plain "invalid syntax")⟩, []⟩ ∧
      (GoError.plain "invalid syntax").kind ≠ some .ErrInvalidRequest :=
  ⟨by decide,
    ((malformed_argument_replies sampleDeps scenarioKeeper).1 "abc" (.plain "invalid syntax")
      (by decide)).2.2.2.1 tokenT.hex,
    by decide,
    ((malformed_argument_replies sampleDeps scenarioKeeper).1 "abc" (.plain "invalid syntax")
      (by decide)).1 [],
    by decide⟩

/-- C10 (what the code does): for a nonce that parses, `queryAllBatchConfirms`
never calls `ValidateBasic`; whatever the token contract text, it iterates the
confirmations under the address built from it and answers with the records
found, or with a nil payload and no error when there are none. -/
theorem queryAllBatchConfirms_skips_validation (d : Deps) (keeper : Keeper)
    (nonceStr tokenStr : String) (n : UInt64Nonce) (hnonce : parseNonce d nonceStr = .ok n) :
    queryAllBatchConfirms d nonceStr tokenStr keeper =
      (if (keeper.BatchConfirmByNonceAndTokenContract n (d.NewEthereumAddress tokenStr)).length = 0
      then
        ⟨.returned ⟨none, none⟩,
          [.IterateBatchConfirmByNonceAndTokenContract n (d.NewEthereumAddress tokenStr)]⟩
      else
        ⟨marshalReply d .ErrJSONMarshal (.batchConfirms
            (keeper.BatchConfirmByNonceAndTokenContract n (d.NewEthereumAddress tokenStr))),
          [.IterateBatchConfirmByNonceAndTokenContract n (d.NewEthereumAddress tokenStr)]⟩) := by
  simp only [queryAllBatchConfirms, hnonce, iterate_collect_all, List.nil_append]

/-- The failing input of C10: nonce "1" and token contract "xyz", which fails
`ValidateBasic`; the store is iterated and the reply is an empty success. -/
theorem queryAllBatchConfirms_skips_validation_witness :
    parseNonce sampleDeps "1" = .ok 1 ∧
      sampleDeps.ValidateBasic (sampleDeps.NewEthereumAddress "xyz") ≠ none ∧
      queryAllBatchConfirms sampleDeps "1" "xyz" scenarioKeeper =
        ⟨.returned ⟨none, none⟩, [.IterateBatchConfirmByNonceAndTokenContract 1 ⟨"xyz"⟩]⟩ :=
  ⟨by decide, by decide,
    queryAllBatchConfirms_skips_validation sampleDeps scenarioKeeper "1" "xyz" 1 (by decide)⟩

/-! ## Unknown names and confirmation listings -/

/-- C11 (as amended): for every path whose first segment is none of the ten
routed names, the router reads nothing and returns no payload and the
`ErrUnknownRequest` error "unknown <module> query endpoint"; the message names
the module and is the same whatever the segment. -/
theorem NewQuerier_unknown_name (d : Deps) (keeper : Keeper) (name : String)
    (rest : List String)
    (h1 : name ≠ QueryCurrentValset) (h2 : name ≠ QueryValsetRequest)
    (h3 : name ≠ QueryValsetConfirm) (h4 : name ≠ QueryValsetConfirmsByNonce)
    (h5 : name ≠ QueryLastValsetRequests) (h6 : name ≠ QueryLastPendingValsetRequestByAddr)
    (h7 : name ≠ QueryBatch) (h8 : name ≠ QueryBatchConfirms)
    (h9 : name ≠ QueryLastPendingBatchRequestByAddr) (h10 : name ≠ QueryOutgoingTxBatches) :
    NewQuerier d keeper (name :: rest) =
        ⟨.returned ⟨none, some (Wrap .ErrUnknownRequest
          ("unknown " ++ d.ModuleName ++ " query endpoint"))⟩, []⟩ ∧
      (Wrap .ErrUnknownRequest ("unknown " ++ d.ModuleName ++ " query endpoint")).kind =
        some .ErrUnknownRequest ∧
      d.ModuleName.data <:+:
        (Wrap .ErrUnknownRequest ("unknown " ++ d.ModuleName ++ " query endpoint")).Error.data := by
  refine ⟨NewQuerier_default d keeper name rest h1 h2 h3 h4 h5 h6 h7 h8 h9 h10, rfl, ?_⟩
  refine ⟨"unknown ".data, (" query endpoint" ++ ": " ++ ErrKind.description .ErrUnknownRequest).data,
    ?_⟩
  simp [Wrap, GoError.Error, String.data_append]

/-- The declared but unrouted name `allBridgedDenominators`. -/
theorem NewQuerier_unknown_name_witness :
    NewQuerier sampleDeps scenarioKeeper ["allBridgedDenominators"] =
        ⟨.returned ⟨none, some (Wrap .ErrUnknownRequest "unknown peggy query endpoint")⟩, []⟩ ∧
      (Wrap .ErrUnknownRequest
        ("unknown " ++ sampleDeps.ModuleName ++ " query endpoint")).kind =
          some .ErrUnknownRequest ∧
      sampleDeps.ModuleName.data <:+:
        (Wrap .ErrUnknownRequest
          ("unknown " ++ sampleDeps.ModuleName ++ " query endpoint")).Error.data :=
  NewQuerier_unknown_name sampleDeps scenarioKeeper "allBridgedDenominators" []
    (by decide) (by decide) (by decide) (by decide) (by decide) (by decide) (by decide)
    (by decide) (by decide) (by decide)

/-- C11 (counterexample): for the unrouted segment `allBridgedDenominators` the
error message is "unknown peggy query endpoint: unknown request", which does
not contain the segment. -/
theorem NewQuerier_unknown_name_omits_segment :
    (NewQuerier sampleDeps scenarioKeeper ["allBridgedDenominators"]).run =
        .returned ⟨none, some (Wrap .ErrUnknownRequest "unknown peggy query endpoint")⟩ ∧
      (Wrap .ErrUnknownRequest "unknown peggy query endpoint").Error =
        "unknown peggy query endpoint: unknown request" ∧
      ¬ ("allBridgedDenominators".data <:+:
        (Wrap .ErrUnknownRequest "unknown peggy query endpoint").Error.data) := by
  refine ⟨by decide, by decide, by decide⟩

theorem queryAllValsetConfirms_eq (d : Deps) (keeper : Keeper) (nonceStr : String)
    (n : UInt64Nonce) (hnonce : parseNonce d nonceStr = .ok n) :
    queryAllValsetConfirms d nonceStr keeper =
      (if (keeper.ValsetConfirmByNonce n).length = 0 then
        ⟨.returned ⟨none, none⟩, [.IterateValsetConfirmByNonce n]⟩
      else
        ⟨marshalReply d .ErrJSONMarshal (.valsetConfirms (keeper.ValsetConfirmByNonce n)),
          [.IterateValsetConfirmByNonce n]⟩) := by
  simp only [queryAllValsetConfirms, hnonce, iterate_collect_all, List.nil_append]

theorem queryAllBatchConfirms_eq (d : Deps) (keeper : Keeper) (nonceStr tokenStr : String)
    (n : UInt64Nonce) (hnonce : parseNonce d nonceStr = .ok n) :
    queryAllBatchConfirms d nonceStr tokenStr keeper =
      (if (keeper.BatchConfirmByNonceAndTokenContract n (d.NewEthereumAddress tokenStr)).length = 0
      then
        ⟨.returned ⟨none, none⟩,
          [.IterateBatchConfirmByNonceAndTokenContract n (d.NewEthereumAddress tokenStr)]⟩
      else
        ⟨marshalReply d .ErrJSONMarshal (.batchConfirms
            (keeper.BatchConfirmByNonceAndTokenContract n (d.NewEthereumAddress tokenStr))),
          [.IterateBatchConfirmByNonceAndTokenContract n (d.NewEthereumAddress tokenStr)]⟩) := by
  simp only [queryAllBatchConfirms, hnonce, iterate_collect_all, List.nil_append]

/-- C12: for a nonce that parses and has no valset confirmation recorded,
`queryAllValsetConfirms` returns a nil payload and no error, having iterated
the confirmations of that nonce once. -/
theorem queryAllValsetConfirms_none_recorded (d : Deps) (keeper : Keeper) (nonceStr : String)
    (n : UInt64Nonce) (hnonce : parseNonce d nonceStr = .ok n)
    (hnone : keeper.ValsetConfirmByNonce n = []) :
    queryAllValsetConfirms d nonceStr keeper =
      ⟨.returned ⟨none, none⟩, [.IterateValsetConfirmByNonce n]⟩ := by
  rw [queryAllValsetConfirms_eq d keeper nonceStr n hnonce]
  simp [hnone]

/-- The scenario of C12: no confirmation is recorded for nonce 4. -/
theorem queryAllValsetConfirms_none_recorded_witness :
    parseNonce sampleDeps "4" = .ok 4 ∧ scenarioKeeper.ValsetConfirmByNonce 4 = [] ∧
      queryAllValsetConfirms sampleDeps "4" scenarioKeeper =
        ⟨.returned ⟨none, none⟩, [.IterateValsetConfirmByNonce 4]⟩ :=
  ⟨by decide, by decide,
    queryAllValsetConfirms_none_recorded sampleDeps scenarioKeeper "4" 4 (by decide) (by decide)⟩

/-- C13 (what the code does): for a nonce (and token contract) with no recorded
confirmation, `queryAllValsetConfirms` and `queryAllBatchConfirms` return a nil
payload; the encoder is not called, so the payload is neither the bytes of
"[]" nor what the encoder produces for the empty list. -/
theorem confirms_none_recorded_nil_payload (d : Deps) (keeper : Keeper) :
    (∀ (nonceStr : String) (n : UInt64Nonce), parseNonce d nonceStr = .ok n →
        keeper.ValsetConfirmByNonce n = [] →
        (queryAllValsetConfirms d nonceStr keeper).run = .returned ⟨none, none⟩ ∧
          (queryAllValsetConfirms d nonceStr keeper).run ≠ .returned ⟨some "[]", none⟩ ∧
          (queryAllValsetConfirms d nonceStr keeper).run ≠
            marshalReply d .ErrJSONMarshal (.valsetConfirms [])) ∧
      (∀ (nonceStr tokenStr : String) (n : UInt64Nonce), parseNonce d nonceStr = .ok n →
        keeper.BatchConfirmByNonceAndTokenContract n (d.NewEthereumAddress tokenStr) = [] →
        (queryAllBatchConfirms d nonceStr tokenStr keeper).run = .returned ⟨none, none⟩ ∧
          (queryAllBatchConfirms d nonceStr tokenStr keeper).run ≠ .returned ⟨some "[]", none⟩ ∧
          (queryAllBatchConfirms d nonceStr tokenStr keeper).run ≠
            marshalReply d .ErrJSONMarshal (.batchConfirms [])) := by
  refine ⟨?_, ?_⟩
  · intro nonceStr n hn hnone
    have hrun : (queryAllValsetConfirms d nonceStr keeper).run = .returned ⟨none, none⟩ := by
      rw [queryAllValsetConfirms_eq d keeper nonceStr n hn]; simp [hnone]
    refine ⟨hrun, ?_, ?_⟩
    · rw [hrun]; simp
    · rw [hrun]; exact fun h => marshalReply_ne_empty d _ _ h.symm
  · intro nonceStr tokenStr n hn hnone
    have hrun : (queryAllBatchConfirms d nonceStr tokenStr keeper).run =
        .returned ⟨none, none⟩ := by
      rw [queryAllBatchConfirms_eq d keeper nonceStr tokenStr n hn]; simp [hnone]
    refine ⟨hrun, ?_, ?_⟩
    · rw [hrun]; simp
    · rw [hrun]; exact fun h => marshalReply_ne_empty d _ _ h.symm

/-- The failing inputs of C13: nonce "4", and nonce "4" with token T, nothing
recorded for either. -/
theorem confirms_none_recorded_nil_payload_witness :
    parseNonce sampleDeps "4" = .ok 4 ∧
      scenarioKeeper.ValsetConfirmByNonce 4 = [] ∧
      scenarioKeeper.BatchConfirmByNonceAndTokenContract 4
        (sampleDeps.NewEthereumAddress tokenT.hex) = [] ∧
      ((queryAllValsetConfirms sampleDeps "4" scenarioKeeper).run = .returned ⟨none, none⟩ ∧
        (queryAllValsetConfirms sampleDeps "4" scenarioKeeper).run ≠
          .returned ⟨some "[]", none⟩ ∧
        (queryAllValsetConfirms sampleDeps "4" scenarioKeeper).run ≠
          marshalReply sampleDeps .ErrJSONMarshal (.valsetConfirms [])) ∧
      ((queryAllBatchConfirms sampleDeps "4" tokenT.hex scenarioKeeper).run =
          .returned ⟨none, none⟩ ∧
        (queryAllBatchConfirms sampleDeps "4" tokenT.hex scenarioKeeper).run ≠
          .returned ⟨some "[]", none⟩ ∧
        (queryAllBatchConfirms sampleDeps "4" tokenT.hex scenarioKeeper).run ≠
          marshalReply sampleDeps .ErrJSONMarshal (.batchConfirms [])) :=
  ⟨by decide, by decide, by decide,
    (confirms_none_recorded_nil_payload sampleDeps scenarioKeeper).1 "4" 4 (by decide)
      (by decide),
    (confirms_none_recorded_nil_payload sampleDeps scenarioKeeper).2 "4" tokenT.hex 4
      (by decide) (by decide)⟩

/-- C14 (what the code does): for a nonce that parses (and any token contract
text), the visitors of `queryAllValsetConfirms` and `queryAllBatchConfirms`
never stop and collect the complete sequence visited by
`IterateValsetConfirmByNonce` and `IterateBatchConfirmByNonceAndTokenContract`,
each record once and in iteration order, with no cap. When the sequence is not
empty the reply is the encoder's output on the whole of it; when it is empty
the reply is a nil payload, which is not the encoder's output on the (empty)
complete sequence. -/
theorem confirms_listing_complete (d : Deps) (keeper : Keeper) :
    (∀ (nonceStr : String) (n : UInt64Nonce), parseNonce d nonceStr = .ok n →
        (keeper.ValsetConfirmByNonce n ≠ [] →
          queryAllValsetConfirms d nonceStr keeper =
            ⟨marshalReply d .ErrJSONMarshal (.valsetConfirms (keeper.ValsetConfirmByNonce n)),
              [.IterateValsetConfirmByNonce n]⟩) ∧
        (keeper.ValsetConfirmByNonce n = [] →
          queryAllValsetConfirms d nonceStr keeper =
              ⟨.returned ⟨none, none⟩, [.IterateValsetConfirmByNonce n]⟩ ∧
            (queryAllValsetConfirms d nonceStr keeper).run ≠
              marshalReply d .ErrJSONMarshal
                (.valsetConfirms (keeper.ValsetConfirmByNonce n)))) ∧
      (∀ (nonceStr tokenStr : String) (n : UInt64Nonce), parseNonce d nonceStr = .ok n →
        (keeper.BatchConfirmByNonceAndTokenContract n (d.NewEthereumAddress tokenStr) ≠ [] →
          queryAllBatchConfirms d nonceStr tokenStr keeper =
            ⟨marshalReply d .ErrJSONMarshal (.batchConfirms
                (keeper.BatchConfirmByNonceAndTokenContract n (d.NewEthereumAddress tokenStr))),
              [.IterateBatchConfirmByNonceAndTokenContract n
                (d.NewEthereumAddress tokenStr)]⟩) ∧
        (keeper.BatchConfirmByNonceAndTokenContract n (d.NewEthereumAddress tokenStr) = [] →
          queryAllBatchConfirms d nonceStr tokenStr keeper =
              ⟨.returned ⟨none, none⟩,
                [.IterateBatchConfirmByNonceAndTokenContract n
                  (d.NewEthereumAddress tokenStr)]⟩ ∧
            (queryAllBatchConfirms d nonceStr tokenStr keeper).run ≠
              marshalReply d .ErrJSONMarshal (.batchConfirms
                (keeper.BatchConfirmByNonceAndTokenContract n
                  (d.NewEthereumAddress tokenStr))))) ∧
      (∀ (items acc : List MsgValsetConfirm),
        iterate items (fun (confirms : List MsgValsetConfirm) c => (confirms ++ [c], false)) acc =
          acc ++ items) ∧
      (∀ (items acc : List MsgConfirmBatch),
        iterate items (fun (confirms : List MsgConfirmBatch) c => (confirms ++ [c], false)) acc =
          acc ++ items) := by
  refine ⟨?_, ?_, iterate_collect_all, iterate_collect_all⟩
  · intro nonceStr n hn
    have heq := queryAllValsetConfirms_eq d keeper nonceStr n hn
    refine ⟨?_, ?_⟩
    · intro hne
      rw [heq]
      simp [hne]
    · intro hnil
      have hexec : queryAllValsetConfirms d nonceStr keeper =
          ⟨.returned ⟨none, none⟩, [.IterateValsetConfirmByNonce n]⟩ := by
        rw [heq]
        simp [hnil]
      refine ⟨hexec, ?_⟩
      rw [hexec]
      exact fun h => marshalReply_ne_empty d _ _ h.symm
  · intro nonceStr tokenStr n hn
    have heq := queryAllBatchConfirms_eq d keeper nonceStr tokenStr n hn
    refine ⟨?_, ?_⟩
    · intro hne
      rw [heq]
      simp [hne]
    · intro hnil
      have hexec : queryAllBatchConfirms d nonceStr tokenStr keeper =
          ⟨.returned ⟨none, none⟩,
            [.IterateBatchConfirmByNonceAndTokenContract n (d.NewEthereumAddress tokenStr)]⟩ := by
        rw [heq]
        simp [hnil]
      refine ⟨hexec, ?_⟩
      rw [hexec]
      exact fun h => marshalReply_ne_empty d _ _ h.symm

/-- The failing input of C14, nonce "4" with nothing recorded: a nil payload,
not the encoding of the empty sequence; and the two confirmations of valset 1
and of batch (1, T), each listing complete and in store order. -/
theorem confirms_listing_complete_witness :
    parseNonce sampleDeps "4" = .ok 4 ∧
      scenarioKeeper.ValsetConfirmByNonce 4 = [] ∧
      queryAllValsetConfirms sampleDeps "4" scenarioKeeper =
        ⟨.returned ⟨none, none⟩, [.IterateValsetConfirmByNonce 4]⟩ ∧
      (queryAllValsetConfirms sampleDeps "4" scenarioKeeper).run ≠
        marshalReply sampleDeps .ErrJSONMarshal
          (.valsetConfirms (scenarioKeeper.ValsetConfirmByNonce 4)) ∧
      marshalReply sampleDeps .ErrJSONMarshal
          (.valsetConfirms (scenarioKeeper.ValsetConfirmByNonce 4)) =
        .returned ⟨some "confirms ", none⟩ ∧
      parseNonce sampleDeps "1" = .ok 1 ∧
      scenarioKeeper.ValsetConfirmByNonce 1 = [⟨1, alice, "sa1"⟩, ⟨1, bob, "sb1"⟩] ∧
      scenarioKeeper.BatchConfirmByNonceAndTokenContract 1
          (sampleDeps.NewEthereumAddress tokenT.hex) =
        [⟨1, tokenT, alice, "ba1"⟩, ⟨1, tokenT, bob, "bb1"⟩] ∧
      queryAllValsetConfirms sampleDeps "1" scenarioKeeper =
        ⟨marshalReply sampleDeps .ErrJSONMarshal
          (.valsetConfirms (scenarioKeeper.ValsetConfirmByNonce 1)),
          [.IterateValsetConfirmByNonce 1]⟩ ∧
      queryAllBatchConfirms sampleDeps "1" tokenT.hex scenarioKeeper =
        ⟨marshalReply sampleDeps .ErrJSONMarshal (.batchConfirms
            (scenarioKeeper.BatchConfirmByNonceAndTokenContract 1
              (sampleDeps.NewEthereumAddress tokenT.hex))),
          [.IterateBatchConfirmByNonceAndTokenContract 1
            (sampleDeps.NewEthereumAddress tokenT.hex)]⟩ :=
  ⟨by decide, by decide,
    (((confirms_listing_complete sampleDeps scenarioKeeper).1 "4" 4 (by decide)).2
      (by decide)).1,
    (((confirms_listing_complete sampleDeps scenarioKeeper).1 "4" 4 (by decide)).2
      (by decide)).2,
    by decide, by decide, by decide, by decide,
    ((confirms_listing_complete sampleDeps scenarioKeeper).1 "1" 1 (by decide)).1 (by decide),
    ((confirms_listing_complete sampleDeps scenarioKeeper).2.1 "1" tokenT.hex 1 (by decide)).1
      (by decide)⟩

/-! ## The nonce parser -/

theorem isDigit_iff_code (c : Char) : c.isDigit = decide (48 ≤ c.toNat ∧ c.toNat ≤ 57) := by
  simp [Char.isDigit, Char.toNat, UInt32.le_def, BitVec.le_def, UInt32.toNat]

theorem digitValue_eq (c : Char) :
    digitValue c = if c.isDigit then some (c.toNat - 48) else none := by
  unfold digitValue
  rw [isDigit_iff_code]
  by_cases h : 48 ≤ c.toNat ∧ c.toNat ≤ 57 <;> simp [h]

theorem digitValue_digitChar (m : Nat) (hm : m < 10) : digitValue (Nat.digitChar m) = some m := by
  interval_cases m <;> rfl

theorem parseDigits_eq (cs : List Char) (acc : Nat) :
    parseDigits cs acc =
      if cs.all Char.isDigit then
        some (cs.foldl (fun a c => 10 * a + (c.toNat - 48)) acc)
      else none := by
  induction cs generalizing acc with
  | nil => simp [parseDigits]
  | cons c cs ih =>
    simp only [parseDigits, digitValue_eq, List.all_cons, List.foldl_cons]
    by_cases hc : c.isDigit = true
    · simp [hc, ih]
    · simp [hc]

theorem parseDigits_toDigitsCore (fuel n : Nat) (ds : List Char) (h : n < fuel) :
    parseDigits (Nat.toDigitsCore 10 fuel n ds) 0 = parseDigits ds n := by
  induction fuel generalizing n ds with
  | zero => omega
  | succ fuel ih =>
    have hd : digitValue (Nat.digitChar (n % 10)) = some (n % 10) :=
      digitValue_digitChar (n % 10) (Nat.mod_lt n (by decide))
    simp only [Nat.toDigitsCore]
    by_cases h0 : n / 10 = 0
    · simp only [h0, if_true, parseDigits, hd]
      have : n % 10 = n := by omega
      simp [this]
    · simp only [h0, if_false]
      rw [ih (n / 10) _ (by omega)]
      simp only [parseDigits, hd]
      have : 10 * (n / 10) + n % 10 = n := by omega
      rw [this]

theorem toDigitsCore_ne_nil (fuel n : Nat) (ds : List Char) (h : ds ≠ []) :
    Nat.toDigitsCore 10 fuel n ds ≠ [] := by
  induction fuel generalizing n ds with
  | zero => simpa [Nat.toDigitsCore] using h
  | succ fuel ih =>
    simp only [Nat.toDigitsCore]
    split
    · simp
    · exact ih _ _ (by simp)

theorem toDigits_ne_nil (n : Nat) : Nat.toDigits 10 n ≠ [] := by
  unfold Nat.toDigits
  simp only [Nat.toDigitsCore]
  split
  · simp
  · exact toDigitsCore_ne_nil _ _ _ (by simp)

theorem UInt64NonceFromString_repr (n : Nat) (h : n < 2 ^ 64) :
    UInt64NonceFromString (Nat.repr n) = .ok n := by
  have hdata : (Nat.repr n).data = Nat.toDigits 10 n := rfl
  have hparse : parseDigits (Nat.toDigits 10 n) 0 = some n := by
    unfold Nat.toDigits
    rw [parseDigits_toDigitsCore (n + 1) n [] (by omega)]
    rfl
  unfold UInt64NonceFromString
  rw [hdata]
  cases hl : Nat.toDigits 10 n with
  | nil => exact absurd hl (toDigits_ne_nil n)
  | cons c cs =>
    rw [hl] at hparse
    simp only [hparse]
    rw [if_pos h]

theorem UInt64NonceFromString_wellFormed (s : String) :
    (wellFormedNonce s = true → UInt64NonceFromString s = .ok (decimalValue s.data)) ∧
      (wellFormedNonce s = false → ∃ e, UInt64NonceFromString s = .error e) := by
  unfold UInt64NonceFromString wellFormedNonce decimalValue
  cases hl : s.data with
  | nil => simp
  | cons c cs =>
    simp only [parseDigits_eq]
    by_cases hall : (c :: cs).all Char.isDigit = true
    · by_cases hr : (c :: cs).foldl (fun a c => 10 * a + (c.toNat - 48)) 0 < 2 ^ 64
      · simp only [hall, if_true, hr]
        simp
      · simp only [hall, if_true, hr]
        simp
    · simp only [hall]
      simp

/-- C15: on the decimal parser modelled for `types.UInt64NonceFromString`,
`parseNonce` round-trips: applied to the decimal text of any n below 2^64 it
succeeds with n; it succeeds on every well-formed nonce text with that text's
value, and fails on every text that is not a well-formed decimal integer in
range. -/
theorem parseNonce_round_trip :
    (∀ n : Nat, n < 2 ^ 64 → parseNonce sampleDeps (Nat.repr n) = .ok n) ∧
      (∀ s : String, wellFormedNonce s = true →
        parseNonce sampleDeps s = .ok (decimalValue s.data)) ∧
      (∀ s : String, wellFormedNonce s = false → ∃ e, parseNonce sampleDeps s = .error e) :=
  ⟨fun n h => UInt64NonceFromString_repr n h,
    fun s h => (UInt64NonceFromString_wellFormed s).1 h,
    fun s h => (UInt64NonceFromString_wellFormed s).2 h⟩

/-- Nonces 0, 7 and 2^64 - 1 round-trip; the empty text, a signed text, a text
with a letter and the text of 2^64 are rejected. -/
theorem parseNonce_round_trip_witness :
    parseNonce sampleDeps (Nat.repr 0) = .ok 0 ∧
      parseNonce sampleDeps "7" = .ok 7 ∧
      parseNonce sampleDeps (Nat.repr 18446744073709551615) = .ok 18446744073709551615 ∧
      (∃ e, parseNonce sampleDeps "" = .error e) ∧
      (∃ e, parseNonce sampleDeps "-1" = .error e) ∧
      (∃ e, parseNonce sampleDeps "12a" = .error e) ∧
      (∃ e, parseNonce sampleDeps "18446744073709551616" = .error e) :=
  ⟨parseNonce_round_trip.1 0 (by decide),
    parseNonce_round_trip.2.1 "7" (by decide),
    parseNonce_round_trip.1 18446744073709551615 (by decide),
    parseNonce_round_trip.2.2 "" (by decide),
    parseNonce_round_trip.2.2 "-1" (by decide),
    parseNonce_round_trip.2.2 "12a" (by decide),
    parseNonce_round_trip.2.2 "18446744073709551616" (by decide)⟩

/-! ## Order of the capped valset listing -/

/-- C16 (as amended): for every store holding more than 5 valsets, iterated in
ascending nonce order, `lastValsetRequests` hands the encoder the first 5
valsets of the iteration: the 5 with the lowest nonces, lowest first, each
below every valset left out. -/
theorem lastValsetRequests_lowest_five (d : Deps) (keeper : Keeper)
    (hmore : 5 < keeper.ValsetRequest.length)
    (hasc : keeper.ValsetRequest.Pairwise (fun a b => a.Nonce < b.Nonce)) :
    lastValsetRequestsCollected keeper = keeper.ValsetRequest.take 5 ∧
      (lastValsetRequestsCollected keeper).length = 5 ∧
      (lastValsetRequestsCollected keeper).Pairwise (fun a b => a.Nonce < b.Nonce) ∧
      (∀ v ∈ lastValsetRequestsCollected keeper, ∀ w ∈ keeper.ValsetRequest.drop 5,
        v.Nonce < w.Nonce) ∧
      lastValsetRequests d keeper =
        ⟨marshalReply d .ErrJSONMarshal (.valsets (keeper.ValsetRequest.take 5)),
          [.IterateValsetRequest]⟩ := by
  have hcol : lastValsetRequestsCollected keeper = keeper.ValsetRequest.take 5 := by
    unfold lastValsetRequestsCollected
    rw [lastValsetRequestsVisit_collect keeper.ValsetRequest [] 0 (by decide)]
    simp [maxValsetRequestsReturned]
  have hlen : (keeper.ValsetRequest.take 5).length = 5 := by
    rw [List.length_take]; omega
  have hsplit : (keeper.ValsetRequest.take 5 ++ keeper.ValsetRequest.drop 5).Pairwise
      (fun a b => a.Nonce < b.Nonce) := by
    rw [List.take_append_drop]; exact hasc
  have hparts := List.pairwise_append.mp hsplit
  refine ⟨hcol, by rw [hcol, hlen], by rw [hcol]; exact hparts.1, ?_, ?_⟩
  · intro v hv w hw
    rw [hcol] at hv
    exact hparts.2.2 v hv w hw
  · unfold lastValsetRequests
    simp only [hcol, hlen]
    simp

/-- Seven valsets at nonces 1 to 7: the listing holds nonces 1 to 5. -/
theorem lastValsetRequests_lowest_five_witness :
    5 < (rangeKeeper 7).ValsetRequest.length ∧
      (rangeKeeper 7).ValsetRequest.Pairwise (fun a b => a.Nonce < b.Nonce) ∧
      lastValsetRequestsCollected (rangeKeeper 7) = (rangeKeeper 7).ValsetRequest.take 5 ∧
      (lastValsetRequestsCollected (rangeKeeper 7)).length = 5 ∧
      (lastValsetRequestsCollected (rangeKeeper 7)).Pairwise (fun a b => a.Nonce < b.Nonce) ∧
      (∀ v ∈ lastValsetRequestsCollected (rangeKeeper 7),
        ∀ w ∈ (rangeKeeper 7).ValsetRequest.drop 5, v.Nonce < w.Nonce) ∧
      lastValsetRequests sampleDeps (rangeKeeper 7) =
        ⟨marshalReply sampleDeps .ErrJSONMarshal
          (.valsets ((rangeKeeper 7).ValsetRequest.take 5)), [.IterateValsetRequest]⟩ :=
  ⟨by decide, by decide,
    lastValsetRequests_lowest_five sampleDeps (rangeKeeper 7) (by decide) (by decide)⟩

/-- C16 (counterexample): with valsets at nonces 1 to 7 iterated in ascending
order, the listing is the valsets at nonces 1, 2, 3, 4, 5 and not the five
most recent ones 7, 6, 5, 4, 3. -/
theorem lastValsetRequests_not_most_recent :
    5 < (rangeKeeper 7).ValsetRequest.length ∧
      (rangeKeeper 7).ValsetRequest.Pairwise (fun a b => a.Nonce < b.Nonce) ∧
      lastValsetRequestsCollected (rangeKeeper 7) =
        [valsetAt 1, valsetAt 2, valsetAt 3, valsetAt 4, valsetAt 5] ∧
      lastValsetRequestsCollected (rangeKeeper 7) ≠
        [valsetAt 7, valsetAt 6, valsetAt 5, valsetAt 4, valsetAt 3] ∧
      lastValsetRequests sampleDeps (rangeKeeper 7) =
        ⟨.returned ⟨some "valsets 1 2 3 4 5", none⟩, [.IterateValsetRequest]⟩ := by
  refine ⟨by decide, by decide, by decide, by decide, by decide⟩

/-! ## Short circuit, noninterference and progress of the pending scan -/

theorem iterate_pending_at {α : Type} (conf : α → Bool) (read : α → StoreRead)
    (cb : Option α × List StoreRead → α → (Option α × List StoreRead) × Bool)
    (hcb : ∀ s x, cb s x =
      if conf x then ((s.1, s.2 ++ [read x]), false) else ((some x, s.2 ++ [read x]), true))
    (pre : List α) (v : α) (post : List α) (p : Option α) (reads : List StoreRead)
    (hpre : ∀ u ∈ pre, conf u = true) (hv : conf v = false) :
    iterate (pre ++ v :: post) cb (p, reads) = (some v, reads ++ (pre ++ [v]).map read) := by
  induction pre generalizing reads with
  | nil =>
    rw [List.nil_append,
      iterate_cons_stop v post cb (p, reads) (some v, reads ++ [read v]) (by simp [hcb, hv])]
    simp
  | cons x xs ih =>
    have hx : conf x = true := hpre x (by simp)
    rw [List.cons_append,
      iterate_cons_continue x (xs ++ v :: post) cb (p, reads) (p, reads ++ [read x])
        (by simp [hcb, hx]),
      ih (reads ++ [read x]) (fun u hu => hpre u (List.mem_cons_of_mem x hu))]
    simp

theorem valset_scan_at (keeper : Keeper) (addr : AccAddress) (pre : List Valset) (v : Valset)
    (post : List Valset) (hsplit : keeper.ValsetRequest = pre ++ v :: post)
    (hpre : ∀ u ∈ pre, keeper.GetValsetConfirm u.Nonce addr ≠ none)
    (hv : keeper.GetValsetConfirm v.Nonce addr = none) :
    iterate keeper.ValsetRequest (lastPendingValsetRequestVisit keeper addr)
        (none, [.IterateValsetRequest]) =
      (some v, StoreRead.IterateValsetRequest ::
        (pre ++ [v]).map (fun x => StoreRead.GetValsetConfirm x.Nonce addr)) := by
  rw [hsplit]
  exact iterate_pending_at (fun x => (keeper.GetValsetConfirm x.Nonce addr).isSome)
    (fun x => StoreRead.GetValsetConfirm x.Nonce addr) _
    (lastPendingValsetRequestVisit_eq keeper addr) pre v post none _
    (fun u hu => Option.isSome_iff_ne_none.mpr (hpre u hu)) (by simp [hv])

theorem batch_scan_at (keeper : Keeper) (addr : AccAddress) (pre : List OutgoingTxBatch)
    (v : OutgoingTxBatch) (post : List OutgoingTxBatch)
    (hsplit : keeper.OutgoingTXBatches = pre ++ v :: post)
    (hpre : ∀ u ∈ pre, keeper.GetBatchConfirm u.Nonce u.TokenContract addr ≠ none)
    (hv : keeper.GetBatchConfirm v.Nonce v.TokenContract addr = none) :
    iterate keeper.OutgoingTXBatches (lastPendingBatchRequestVisit keeper addr)
        (none, [.IterateOutgoingTXBatches]) =
      (some v, StoreRead.IterateOutgoingTXBatches ::
        (pre ++ [v]).map (fun x => StoreRead.GetBatchConfirm x.Nonce x.TokenContract addr)) := by
  rw [hsplit]
  exact iterate_pending_at
    (fun x => (keeper.GetBatchConfirm x.Nonce x.TokenContract addr).isSome)
    (fun x => StoreRead.GetBatchConfirm x.Nonce x.TokenContract addr) _
    (lastPendingBatchRequestVisit_eq keeper addr) pre v post none _
    (fun u hu => Option.isSome_iff_ne_none.mpr (hpre u hu)) (by simp [hv])

theorem lastPendingValsetRequest_at (d : Deps) (signer : String) (addr : AccAddress)
    (hsigner : d.AccAddressFromBech32 signer = .ok addr) (keeper : Keeper)
    (pre : List Valset) (v : Valset) (post : List Valset)
    (hsplit : keeper.ValsetRequest = pre ++ v :: post)
    (hpre : ∀ u ∈ pre, keeper.GetValsetConfirm u.Nonce addr ≠ none)
    (hv : keeper.GetValsetConfirm v.Nonce addr = none) :
    lastPendingValsetRequest d signer keeper =
      ⟨marshalReply d .ErrJSONMarshal (.valsetPtr v), StoreRead.IterateValsetRequest ::
        (pre ++ [v]).map (fun x => StoreRead.GetValsetConfirm x.Nonce addr)⟩ := by
  simp only [lastPendingValsetRequest, hsigner,
    valset_scan_at keeper addr pre v post hsplit hpre hv]

theorem lastPendingBatchRequest_at (d : Deps) (signer : String) (addr : AccAddress)
    (hsigner : d.AccAddressFromBech32 signer = .ok addr) (keeper : Keeper)
    (pre : List OutgoingTxBatch) (v : OutgoingTxBatch) (post : List OutgoingTxBatch)
    (hsplit : keeper.OutgoingTXBatches = pre ++ v :: post)
    (hpre : ∀ u ∈ pre, keeper.GetBatchConfirm u.Nonce u.TokenContract addr ≠ none)
    (hv : keeper.GetBatchConfirm v.Nonce v.TokenContract addr = none) :
    lastPendingBatchRequest d signer keeper =
      ⟨marshalReply d .ErrJSONMarshal (.batchPtr v), StoreRead.IterateOutgoingTXBatches ::
        (pre ++ [v]).map
          (fun x => StoreRead.GetBatchConfirm x.Nonce x.TokenContract addr)⟩ := by
  simp only [lastPendingBatchRequest, hsigner,
    batch_scan_at keeper addr pre v post hsplit hpre hv]

theorem isSome_agree_ne_none {α : Type} (a b : Option α) (h : a.isSome = b.isSome)
    (hb : b ≠ none) : a ≠ none :=
  Option.isSome_iff_ne_none.mp (h ▸ Option.isSome_iff_ne_none.mpr hb)

theorem isSome_agree_eq_none {α : Type} (a b : Option α) (h : a.isSome = b.isSome)
    (hb : b = none) : a = none := by
  subst hb
  cases a with
  | none => rfl
  | some x => simp at h

/-- C17: in `lastPendingValsetRequest` and `lastPendingBatchRequest` the visitor
returns false on every item before the first one lacking the signer's
confirmation and true on that item; the keeper reads are the iteration and
one confirmation lookup for each item up to and including it; and a store
that agrees on those items and on the signer's confirmations for them gives
the same result and reads, whatever follows the first pending item. -/
theorem pending_scan_short_circuit (d : Deps) (signer : String) (addr : AccAddress)
    (hsigner : d.AccAddressFromBech32 signer = .ok addr) :
    (∀ (keeper : Keeper) (pre : List Valset) (v : Valset) (post : List Valset),
        keeper.ValsetRequest = pre ++ v :: post →
        (∀ u ∈ pre, keeper.GetValsetConfirm u.Nonce addr ≠ none) →
        keeper.GetValsetConfirm v.Nonce addr = none →
        (∀ s, ∀ u ∈ pre, (lastPendingValsetRequestVisit keeper addr s u).2 = false) ∧
          (∀ s, (lastPendingValsetRequestVisit keeper addr s v).2 = true) ∧
          lastPendingValsetRequest d signer keeper =
            ⟨marshalReply d .ErrJSONMarshal (.valsetPtr v), StoreRead.IterateValsetRequest ::
              (pre ++ [v]).map (fun x => StoreRead.GetValsetConfirm x.Nonce addr)⟩ ∧
          (∀ (keeper' : Keeper) (post' : List Valset),
            keeper'.ValsetRequest = pre ++ v :: post' →
            (∀ u ∈ pre ++ [v], (keeper'.GetValsetConfirm u.Nonce addr).isSome =
              (keeper.GetValsetConfirm u.Nonce addr).isSome) →
            lastPendingValsetRequest d signer keeper' =
              lastPendingValsetRequest d signer keeper)) ∧
      (∀ (keeper : Keeper) (pre : List OutgoingTxBatch) (v : OutgoingTxBatch)
          (post : List OutgoingTxBatch),
        keeper.OutgoingTXBatches = pre ++ v :: post →
        (∀ u ∈ pre, keeper.GetBatchConfirm u.Nonce u.TokenContract addr ≠ none) →
        keeper.GetBatchConfirm v.Nonce v.TokenContract addr = none →
        (∀ s, ∀ u ∈ pre, (lastPendingBatchRequestVisit keeper addr s u).2 = false) ∧
          (∀ s, (lastPendingBatchRequestVisit keeper addr s v).2 = true) ∧
          lastPendingBatchRequest d signer keeper =
            ⟨marshalReply d .ErrJSONMarshal (.batchPtr v), StoreRead.IterateOutgoingTXBatches ::
              (pre ++ [v]).map
                (fun x => StoreRead.GetBatchConfirm x.Nonce x.TokenContract addr)⟩ ∧
          (∀ (keeper' : Keeper) (post' : List OutgoingTxBatch),
            keeper'.OutgoingTXBatches = pre ++ v :: post' →
            (∀ u ∈ pre ++ [v], (keeper'.GetBatchConfirm u.Nonce u.TokenContract addr).isSome =
              (keeper.GetBatchConfirm u.Nonce u.TokenContract addr).isSome) →
            lastPendingBatchRequest d signer keeper' =
              lastPendingBatchRequest d signer keeper)) := by
  refine ⟨?_, ?_⟩
  · intro keeper pre v post hsplit hpre hv
    have hmain := lastPendingValsetRequest_at d signer addr hsigner keeper pre v post hsplit hpre hv
    refine ⟨?_, ?_, hmain, ?_⟩
    · intro s u hu
      rw [lastPendingValsetRequestVisit_eq]
      simp [Option.isSome_iff_ne_none.mpr (hpre u hu)]
    · intro s
      rw [lastPendingValsetRequestVisit_eq]
      simp [hv]
    · intro keeper' post' hsplit' hagree
      rw [hmain]
      exact lastPendingValsetRequest_at d signer addr hsigner keeper' pre v post' hsplit'
        (fun u hu => isSome_agree_ne_none _ _ (hagree u (by simp [hu])) (hpre u hu))
        (isSome_agree_eq_none _ _ (hagree v (by simp)) hv)
  · intro keeper pre v post hsplit hpre hv
    have hmain := lastPendingBatchRequest_at d signer addr hsigner keeper pre v post hsplit hpre hv
    refine ⟨?_, ?_, hmain, ?_⟩
    · intro s u hu
      rw [lastPendingBatchRequestVisit_eq]
      simp [Option.isSome_iff_ne_none.mpr (hpre u hu)]
    · intro s
      rw [lastPendingBatchRequestVisit_eq]
      simp [hv]
    · intro keeper' post' hsplit' hagree
      rw [hmain]
      exact lastPendingBatchRequest_at d signer addr hsigner keeper' pre v post' hsplit'
        (fun u hu => isSome_agree_ne_none _ _ (hagree u (by simp [hu])) (hpre u hu))
        (isSome_agree_eq_none _ _ (hagree v (by simp)) hv)

/-- The scenario store and a store that differs after valset 2 and after batch
(1, U): the reads stop at the first pending item and the results coincide. -/
theorem pending_scan_short_circuit_witness :
    sampleDeps.AccAddressFromBech32 "alice" = .ok alice ∧
      lastPendingValsetRequest sampleDeps "alice" scenarioKeeper =
        ⟨.returned ⟨some "valset 2", none⟩,
          [.IterateValsetRequest, .GetValsetConfirm 1 alice, .GetValsetConfirm 2 alice]⟩ ∧
      lastPendingValsetRequest sampleDeps "alice" scenarioKeeperVariant =
        lastPendingValsetRequest sampleDeps "alice" scenarioKeeper ∧
      lastPendingBatchRequest sampleDeps "alice" scenarioKeeper =
        ⟨.returned ⟨some "batch 1 0x0000000000000000000000000000000000000002", none⟩,
          [.IterateOutgoingTXBatches, .GetBatchConfirm 1 tokenT alice,
            .GetBatchConfirm 1 tokenU alice]⟩ ∧
      lastPendingBatchRequest sampleDeps "alice" scenarioKeeperVariant =
        lastPendingBatchRequest sampleDeps "alice" scenarioKeeper :=
  ⟨by decide,
    ((pending_scan_short_circuit sampleDeps "alice" alice (by decide)).1 scenarioKeeper
      [valsetAt 1] (valsetAt 2) [valsetAt 3] (by decide) (by decide) (by decide)).2.2.1,
    ((pending_scan_short_circuit sampleDeps "alice" alice (by decide)).1 scenarioKeeper
      [valsetAt 1] (valsetAt 2) [valsetAt 3] (by decide) (by decide) (by decide)).2.2.2
      scenarioKeeperVariant [valsetAt 8, valsetAt 9] (by decide) (by decide),
    ((pending_scan_short_circuit sampleDeps "alice" alice (by decide)).2 scenarioKeeper
      [⟨1, tokenT, [10]⟩] ⟨1, tokenU, [11]⟩ [⟨2, tokenT, [12]⟩]
      (by decide) (by decide) (by decide)).2.2.1,
    ((pending_scan_short_circuit sampleDeps "alice" alice (by decide)).2 scenarioKeeper
      [⟨1, tokenT, [10]⟩] ⟨1, tokenU, [11]⟩ [⟨2, tokenT, [12]⟩]
      (by decide) (by decide) (by decide)).2.2.2
      scenarioKeeperVariant [⟨5, tokenU, [15]⟩] (by decide) (by decide)⟩

theorem lastPendingValsetRequestVisit_congr (k1 k2 : Keeper) (addr : AccAddress)
    (h : ∀ n, (k1.GetValsetConfirm n addr).isSome = (k2.GetValsetConfirm n addr).isSome) :
    lastPendingValsetRequestVisit k1 addr = lastPendingValsetRequestVisit k2 addr := by
  funext s val
  rw [lastPendingValsetRequestVisit_eq, lastPendingValsetRequestVisit_eq, h val.Nonce]

theorem lastPendingBatchRequestVisit_congr (k1 k2 : Keeper) (addr : AccAddress)
    (h : ∀ n t, (k1.GetBatchConfirm n t addr).isSome = (k2.GetBatchConfirm n t addr).isSome) :
    lastPendingBatchRequestVisit k1 addr = lastPendingBatchRequestVisit k2 addr := by
  funext s batch
  rw [lastPendingBatchRequestVisit_eq, lastPendingBatchRequestVisit_eq,
    h batch.Nonce batch.TokenContract]

/-- C19: two stores that hold the same valsets (batches) in the same order and
agree on the presence of every confirmation by the signer give the same
result, and the same reads, for `lastPendingValsetRequest`
(`lastPendingBatchRequest`) of that signer, whatever the other signers have
confirmed. -/
theorem pending_scan_noninterference (d : Deps) (k1 k2 : Keeper) (signer : String)
    (addr : AccAddress) (hsigner : d.AccAddressFromBech32 signer = .ok addr) :
    (k1.ValsetRequest = k2.ValsetRequest →
        (∀ n, (k1.GetValsetConfirm n addr).isSome = (k2.GetValsetConfirm n addr).isSome) →
        lastPendingValsetRequest d signer k1 = lastPendingValsetRequest d signer k2) ∧
      (k1.OutgoingTXBatches = k2.OutgoingTXBatches →
        (∀ n t, (k1.GetBatchConfirm n t addr).isSome = (k2.GetBatchConfirm n t addr).isSome) →
        lastPendingBatchRequest d signer k1 = lastPendingBatchRequest d signer k2) := by
  refine ⟨?_, ?_⟩
  · intro hsame hconf
    simp only [lastPendingValsetRequest, hsigner, hsame,
      lastPendingValsetRequestVisit_congr k1 k2 addr hconf]
  · intro hsame hconf
    simp only [lastPendingBatchRequest, hsigner, hsame,
      lastPendingBatchRequestVisit_congr k1 k2 addr hconf]

/-- The scenario store and the same store without the other signers'
confirmations: the answers to `alice` coincide, those to `bob` do not. -/
theorem pending_scan_noninterference_witness :
    sampleDeps.AccAddressFromBech32 "alice" = .ok alice ∧
      scenarioKeeper.ValsetRequest = scenarioKeeperAliceOnly.ValsetRequest ∧
      scenarioKeeper.OutgoingTXBatches = scenarioKeeperAliceOnly.OutgoingTXBatches ∧
      lastPendingValsetRequest sampleDeps "alice" scenarioKeeper =
        lastPendingValsetRequest sampleDeps "alice" scenarioKeeperAliceOnly ∧
      lastPendingBatchRequest sampleDeps "alice" scenarioKeeper =
        lastPendingBatchRequest sampleDeps "alice" scenarioKeeperAliceOnly ∧
      lastPendingValsetRequest sampleDeps "bob" scenarioKeeper ≠
        lastPendingValsetRequest sampleDeps "bob" scenarioKeeperAliceOnly :=
  ⟨by decide, rfl, rfl,
    (pending_scan_noninterference sampleDeps scenarioKeeper scenarioKeeperAliceOnly "alice"
      alice (by decide)).1 rfl (fun n => by simp [scenarioKeeperAliceOnly]),
    (pending_scan_noninterference sampleDeps scenarioKeeper scenarioKeeperAliceOnly "alice"
      alice (by decide)).2 rfl (fun n t => by simp [scenarioKeeperAliceOnly]),
    by decide⟩

theorem iterate_pending_skip {α : Type} (conf : α → Bool) (read : α → StoreRead)
    (cb : Option α × List StoreRead → α → (Option α × List StoreRead) × Bool)
    (hcb : ∀ s x, cb s x =
      if conf x then ((s.1, s.2 ++ [read x]), false) else ((some x, s.2 ++ [read x]), true))
    (pre xs : List α) (p : Option α) (reads : List StoreRead)
    (hpre : ∀ u ∈ pre, conf u = true) :
    iterate (pre ++ xs) cb (p, reads) = iterate xs cb (p, reads ++ pre.map read) := by
  induction pre generalizing reads with
  | nil => simp
  | cons x pre ih =>
    have hx : conf x = true := hpre x (by simp)
    rw [List.cons_append,
      iterate_cons_continue x (pre ++ xs) cb (p, reads) (p, reads ++ [read x])
        (by simp [hcb, hx]),
      ih (reads ++ [read x]) (fun u hu => hpre u (List.mem_cons_of_mem x hu))]
    simp

theorem lastPendingValsetRequest_run_of_found (d : Deps) (signer : String) (addr : AccAddress)
    (hsigner : d.AccAddressFromBech32 signer = .ok addr) (keeper : Keeper) :
    (lastPendingValsetRequest d signer keeper).run =
      match lastPendingValsetRequestFound keeper addr with
      | none => .returned ⟨none, none⟩
      | some v => marshalReply d .ErrJSONMarshal (.valsetPtr v) := by
  simp only [lastPendingValsetRequest, hsigner, lastPendingValsetRequestFound]
  rcases iterate keeper.ValsetRequest (lastPendingValsetRequestVisit keeper addr)
    (none, [.IterateValsetRequest]) with ⟨_ | v, reads⟩ <;> rfl

theorem lastPendingBatchRequest_run_of_found (d : Deps) (signer : String) (addr : AccAddress)
    (hsigner : d.AccAddressFromBech32 signer = .ok addr) (keeper : Keeper) :
    (lastPendingBatchRequest d signer keeper).run =
      match lastPendingBatchRequestFound keeper addr with
      | none => .returned ⟨none, none⟩
      | some v => marshalReply d .ErrJSONMarshal (.batchPtr v) := by
  simp only [lastPendingBatchRequest, hsigner, lastPendingBatchRequestFound]
  rcases iterate keeper.OutgoingTXBatches (lastPendingBatchRequestVisit keeper addr)
    (none, [.IterateOutgoingTXBatches]) with ⟨_ | v, reads⟩ <;> rfl

/-- C20: if `lastPendingValsetRequest` of a signer picks valset v, then on the
store that differs only by the signer's confirmation for v's nonce it
returns either a nil payload or a valset positioned after v in the iteration
sequence; that valset is not v, has another nonce, and is none of the items
before v. -/
theorem pending_scan_progress (d : Deps) (keeper keeper' : Keeper) (signer : String)
    (addr : AccAddress) (v : Valset) (c : MsgValsetConfirm)
    (hsigner : d.AccAddressFromBech32 signer = .ok addr)
    (hfound : lastPendingValsetRequestFound keeper addr = some v)
    (hsame : keeper'.ValsetRequest = keeper.ValsetRequest)
    (hadd : ∀ n a, keeper'.GetValsetConfirm n a =
      if n = v.Nonce ∧ a = addr then some c else keeper.GetValsetConfirm n a) :
    (lastPendingValsetRequest d signer keeper).run =
        marshalReply d .ErrJSONMarshal (.valsetPtr v) ∧
      ∃ pre post, keeper.ValsetRequest = pre ++ v :: post ∧
        (∀ u ∈ pre, keeper.GetValsetConfirm u.Nonce addr ≠ none) ∧
        keeper.GetValsetConfirm v.Nonce addr = none ∧
        ((lastPendingValsetRequestFound keeper' addr = none ∧
            (lastPendingValsetRequest d signer keeper').run = .returned ⟨none, none⟩) ∨
          (∃ mid w rest, post = mid ++ w :: rest ∧
            lastPendingValsetRequestFound keeper' addr = some w ∧
            (lastPendingValsetRequest d signer keeper').run =
              marshalReply d .ErrJSONMarshal (.valsetPtr w) ∧
            w ≠ v ∧ w.Nonce ≠ v.Nonce ∧ w ∉ pre)) := by
  have hrun := lastPendingValsetRequest_run_of_found d signer addr hsigner keeper
  rw [hfound] at hrun
  refine ⟨hrun, ?_⟩
  rcases valset_scan keeper addr with ⟨_, hit⟩ | ⟨pre, v0, post, hsplit, hpre, hv0, hit⟩
  · simp [lastPendingValsetRequestFound, hit] at hfound
  · have hv0v : v0 = v := by
      simpa [lastPendingValsetRequestFound, hit] using hfound
    subst hv0v
    have hpre1 : ∀ u ∈ pre, keeper.GetValsetConfirm u.Nonce addr ≠ none := fun u hu =>
      Option.isSome_iff_ne_none.mp (hpre u hu)
    have hv1 : keeper.GetValsetConfirm v0.Nonce addr = none := by
      cases h : keeper.GetValsetConfirm v0.Nonce addr with
      | none => rfl
      | some x => simp [h] at hv0
    have hconf : ∀ u ∈ pre ++ [v0], (keeper'.GetValsetConfirm u.Nonce addr).isSome = true := by
      intro u hu
      rw [hadd]
      by_cases hn : u.Nonce = v0.Nonce
      · simp [hn]
      · rcases List.mem_append.mp hu with hu | hu
        · simpa [hn] using hpre u hu
        · simp at hu
          exact absurd (by rw [hu]) hn
    have hscan : iterate keeper'.ValsetRequest (lastPendingValsetRequestVisit keeper' addr)
        (none, [.IterateValsetRequest]) =
        iterate post (lastPendingValsetRequestVisit keeper' addr)
          (none, [.IterateValsetRequest] ++
            (pre ++ [v0]).map (fun x => StoreRead.GetValsetConfirm x.Nonce addr)) := by
      rw [hsame, hsplit, show pre ++ v0 :: post = (pre ++ [v0]) ++ post by simp]
      exact iterate_pending_skip (fun x => (keeper'.GetValsetConfirm x.Nonce addr).isSome)
        (fun x => StoreRead.GetValsetConfirm x.Nonce addr) _
        (lastPendingValsetRequestVisit_eq keeper' addr) (pre ++ [v0]) post none _ hconf
    have hrun' := lastPendingValsetRequest_run_of_found d signer addr hsigner keeper'
    refine ⟨pre, post, hsplit, hpre1, hv1, ?_⟩
    rcases iterate_pending (fun x => (keeper'.GetValsetConfirm x.Nonce addr).isSome)
        (fun x => StoreRead.GetValsetConfirm x.Nonce addr) _
        (lastPendingValsetRequestVisit_eq keeper' addr) post none
        ([.IterateValsetRequest] ++
          (pre ++ [v0]).map (fun x => StoreRead.GetValsetConfirm x.Nonce addr))
      with ⟨_, hit'⟩ | ⟨mid, w, rest, hpost, _, hw, hit'⟩
    · left
      have hnone : lastPendingValsetRequestFound keeper' addr = none := by
        unfold lastPendingValsetRequestFound
        rw [hscan, hit']
      rw [hnone] at hrun'
      exact ⟨hnone, hrun'⟩
    · right
      have hsome : lastPendingValsetRequestFound keeper' addr = some w := by
        unfold lastPendingValsetRequestFound
        rw [hscan, hit']
      rw [hsome] at hrun'
      have hw' : ¬ (keeper'.GetValsetConfirm w.Nonce addr).isSome = true := by
        simpa using hw
      have hnonce : w.Nonce ≠ v0.Nonce := by
        intro hn
        exact hw' (hn ▸ hconf v0 (by simp))
      refine ⟨mid, w, rest, hpost, hsome, hrun', ?_, hnonce, ?_⟩
      · intro hwv
        exact hnonce (by rw [hwv])
      · intro hmem
        exact hw' (hconf w (by simp [hmem]))

/-- The scenario of C20: `alice` is answered with valset 2; once she has
confirmed it, with valset 3, which follows valset 2 in the iteration. -/
theorem pending_scan_progress_witness :
    sampleDeps.AccAddressFromBech32 "alice" = .ok alice ∧
      lastPendingValsetRequestFound scenarioKeeper alice = some (valsetAt 2) ∧
      scenarioKeeperConfirmed.ValsetRequest = scenarioKeeper.ValsetRequest ∧
      (lastPendingValsetRequest sampleDeps "alice" scenarioKeeperConfirmed).run =
        .returned ⟨some "valset 3", none⟩ ∧
      ((lastPendingValsetRequest sampleDeps "alice" scenarioKeeper).run =
          marshalReply sampleDeps .ErrJSONMarshal (.valsetPtr (valsetAt 2)) ∧
        ∃ pre post, scenarioKeeper.ValsetRequest = pre ++ valsetAt 2 :: post ∧
          (∀ u ∈ pre, scenarioKeeper.GetValsetConfirm u.Nonce alice ≠ none) ∧
          scenarioKeeper.GetValsetConfirm (valsetAt 2).Nonce alice = none ∧
          ((lastPendingValsetRequestFound scenarioKeeperConfirmed alice = none ∧
              (lastPendingValsetRequest sampleDeps "alice" scenarioKeeperConfirmed).run =
                .returned ⟨none, none⟩) ∨
            (∃ mid w rest, post = mid ++ w :: rest ∧
              lastPendingValsetRequestFound scenarioKeeperConfirmed alice = some w ∧
              (lastPendingValsetRequest sampleDeps "alice" scenarioKeeperConfirmed).run =
                marshalReply sampleDeps .ErrJSONMarshal (.valsetPtr w) ∧
              w ≠ valsetAt 2 ∧ w.Nonce ≠ (valsetAt 2).Nonce ∧ w ∉ pre))) :=
  ⟨by decide, by decide, rfl, by decide,
    pending_scan_progress sampleDeps scenarioKeeper scenarioKeeperConfirmed "alice" alice
      (valsetAt 2) ⟨2, alice, "sa2"⟩ (by decide) (by decide) rfl (fun _ _ => rfl)⟩

/-! ## Encoder failures -/

theorem marshalReply_of_error (d : Deps) (root : ErrKind) (v : Encodable) (e : GoError)
    (h : d.MarshalJSONIndent v = .error e) :
    marshalReply d root v = .returned ⟨none, some (Wrap root e.Error)⟩ := by
  simp [marshalReply, h]

/-- C18 (what the code does): when the encoder fails on the value to be
returned, every handler returns no payload and the failure wrapped as an
error; nine handlers wrap it under `ErrJSONMarshal`, `queryBatch` wraps it
under `ErrUnknownRequest`. -/
theorem encoder_failure_replies (d : Deps) (keeper : Keeper) :
    (∀ e, d.MarshalJSONIndent (.valset keeper.GetCurrentValset) = .error e →
        (queryCurrentValset d keeper).run =
          .returned ⟨none, some (Wrap .ErrJSONMarshal e.Error)⟩) ∧
      (∀ nonceStr rest n v e, parseNonce d nonceStr = .ok n →
        keeper.GetValsetRequest n = some v → d.MarshalJSONIndent (.valset v) = .error e →
        (queryValsetRequest d (nonceStr :: rest) keeper).run =
          .returned ⟨none, some (Wrap .ErrJSONMarshal e.Error)⟩) ∧
      (∀ nonceStr addrStr rest n a c e, parseNonce d nonceStr = .ok n →
        d.AccAddressFromBech32 addrStr = .ok a → keeper.GetValsetConfirm n a = some c →
        d.MarshalJSONIndent (.valsetConfirm c) = .error e →
        (queryValsetConfirm d (nonceStr :: addrStr :: rest) keeper).run =
          .returned ⟨none, some (Wrap .ErrJSONMarshal e.Error)⟩) ∧
      (∀ nonceStr n e, parseNonce d nonceStr = .ok n → keeper.ValsetConfirmByNonce n ≠ [] →
        d.MarshalJSONIndent (.valsetConfirms (keeper.ValsetConfirmByNonce n)) = .error e →
        (queryAllValsetConfirms d nonceStr keeper).run =
          .returned ⟨none, some (Wrap .ErrJSONMarshal e.Error)⟩) ∧
      (∀ nonceStr tokenStr n e, parseNonce d nonceStr = .ok n →
        keeper.BatchConfirmByNonceAndTokenContract n (d.NewEthereumAddress tokenStr) ≠ [] →
        d.MarshalJSONIndent (.batchConfirms
          (keeper.BatchConfirmByNonceAndTokenContract n (d.NewEthereumAddress tokenStr))) =
            .error e →
        (queryAllBatchConfirms d nonceStr tokenStr keeper).run =
          .returned ⟨none, some (Wrap .ErrJSONMarshal e.Error)⟩) ∧
      (∀ e, lastValsetRequestsCollected keeper ≠ [] →
        d.MarshalJSONIndent (.valsets (lastValsetRequestsCollected keeper)) = .error e →
        (lastValsetRequests d keeper).run =
          .returned ⟨none, some (Wrap .ErrJSONMarshal e.Error)⟩) ∧
      (∀ signer a v e, d.AccAddressFromBech32 signer = .ok a →
        lastPendingValsetRequestFound keeper a = some v →
        d.MarshalJSONIndent (.valsetPtr v) = .error e →
        (lastPendingValsetRequest d signer keeper).run =
          .returned ⟨none, some (Wrap .ErrJSONMarshal e.Error)⟩) ∧
      (∀ signer a b e, d.AccAddressFromBech32 signer = .ok a →
        lastPendingBatchRequestFound keeper a = some b →
        d.MarshalJSONIndent (.batchPtr b) = .error e →
        (lastPendingBatchRequest d signer keeper).run =
          .returned ⟨none, some (Wrap .ErrJSONMarshal e.Error)⟩) ∧
      (∀ e, lastBatchesRequestCollected keeper ≠ [] →
        d.MarshalJSONIndent (.batches (lastBatchesRequestCollected keeper)) = .error e →
        (lastBatchesRequest d keeper).run =
          .returned ⟨none, some (Wrap .ErrJSONMarshal e.Error)⟩) ∧
      (∀ nonceStr tokenStr n b e, parseNonce d nonceStr = .ok n →
        d.ValidateBasic (d.NewEthereumAddress tokenStr) = none →
        keeper.GetOutgoingTXBatch (d.NewEthereumAddress tokenStr) n = some b →
        d.MarshalJSONIndent (.batchPtr b) = .error e →
        (queryBatch d nonceStr tokenStr keeper).run =
          .returned ⟨none, some (Wrap .ErrUnknownRequest e.Error)⟩) := by
  refine ⟨?_, ?_, ?_, ?_, ?_, ?_, ?_, ?_, ?_, ?_⟩
  · intro e he
    simp [queryCurrentValset, marshalReply_of_error d _ _ e he]
  · intro nonceStr rest n v e hn hv he
    simp [queryValsetRequest, index, hn, hv, marshalReply_of_error d _ _ e he]
  · intro nonceStr addrStr rest n a c e hn ha hc he
    simp [queryValsetConfirm, index, hn, ha, hc, marshalReply_of_error d _ _ e he]
  · intro nonceStr n e hn hne he
    rw [queryAllValsetConfirms_eq d keeper nonceStr n hn]
    simp [hne, marshalReply_of_error d _ _ e he]
  · intro nonceStr tokenStr n e hn hne he
    rw [queryAllBatchConfirms_eq d keeper nonceStr tokenStr n hn]
    simp [hne, marshalReply_of_error d _ _ e he]
  · intro e hne he
    simp [lastValsetRequests, hne, marshalReply_of_error d _ _ e he]
  · intro signer a v e ha hf he
    rw [lastPendingValsetRequest_run_of_found d signer a ha keeper, hf]
    exact marshalReply_of_error d _ _ e he
  · intro signer a b e ha hf he
    rw [lastPendingBatchRequest_run_of_found d signer a ha keeper, hf]
    exact marshalReply_of_error d _ _ e he
  · intro e hne he
    simp [lastBatchesRequest, hne, marshalReply_of_error d _ _ e he]
  · intro nonceStr tokenStr n b e hn hvalid hb he
    simp [queryBatch, hn, hvalid, hb, marshalReply_of_error d _ _ e he]

/-- The failing input of C18: an encoder that fails, and the stored batch
(1, T); `queryBatch` reports the failure under `ErrUnknownRequest`, while the
sibling `queryValsetRequest` reports it under `ErrJSONMarshal`. -/
theorem encoder_failure_replies_witness :
    parseNonce failingDeps "1" = .ok 1 ∧
      failingDeps.ValidateBasic (failingDeps.NewEthereumAddress tokenT.hex) = none ∧
      scenarioKeeper.GetOutgoingTXBatch (failingDeps.NewEthereumAddress tokenT.hex) 1 =
        some ⟨1, tokenT, [10]⟩ ∧
      failingDeps.MarshalJSONIndent (.batchPtr ⟨1, tokenT, [10]⟩) =
        .error (.plain "unregistered concrete type") ∧
      (queryBatch failingDeps "1" tokenT.hex scenarioKeeper).run =
        .returned ⟨none, some (Wrap .ErrUnknownRequest "unregistered concrete type")⟩ ∧
      (Wrap .ErrUnknownRequest "unregistered concrete type").kind ≠ some .ErrJSONMarshal ∧
      (queryValsetRequest failingDeps ["1"] scenarioKeeper).run =
        .returned ⟨none, some (Wrap .ErrJSONMarshal "unregistered concrete type")⟩ :=
  ⟨by decide, by decide, by decide, by decide,
    (encoder_failure_replies failingDeps scenarioKeeper).2.2.2.2.2.2.2.2.2 "1" tokenT.hex 1
      ⟨1, tokenT, [10]⟩ (.plain "unregistered concrete type") (by decide) (by decide)
      (by decide) (by decide),
    by decide,
    (encoder_failure_replies failingDeps scenarioKeeper).2.1 "1" [] 1 (valsetAt 1)
      (.plain "unregistered concrete type") (by decide) (by decide) (by decide)⟩

end Peggy
